import Mathlib

/-!
Shallow embedding of the subscription-conversion core: the per-protocol link
decoders (`vless_to_clash`, `vmess_to_clash`, `trojan_to_clash`, `ss_to_clash`,
`link_to_clash` from `converters.py`) and the subscription decoder and YAML
merge (`parse_subscription`, `update_yaml` from `convert_subscription.py`).
Python strings are modelled as Lean `String` / `List Char`; machine-level
details (base64, UTF-8, percent-decoding, URL splitting) are embedded from the
CPython semantics the source relies on.  Fallible Python code (try/except that
returns `None`) is modelled with `Option` / `Except`.
-/

set_option maxHeartbeats 1000000
set_option maxRecDepth 4000

/-! ### Character classes (CPython `str.strip` / `str.splitlines` sets) -/

/-- The Unicode replacement character U+FFFD used by `errors="replace"`. -/
def replChar : Char := Char.ofNat 0xFFFD

/-- Python `str.isspace` characters (the set `str.strip()` / `str.split()`
strip on).  ASCII whitespace plus the Unicode space and line separators. -/
def isPyWs (c : Char) : Bool :=
  c == ' ' || c == '\t' || c == '\n' || c == Char.ofNat 0x0D ||
  c == Char.ofNat 0x0B || c == Char.ofNat 0x0C ||
  c == Char.ofNat 0x1C || c == Char.ofNat 0x1D || c == Char.ofNat 0x1E ||
  c == Char.ofNat 0x1F || c == Char.ofNat 0x85 || c == Char.ofNat 0xA0 ||
  c == Char.ofNat 0x1680 ||
  (Char.ofNat 0x2000 ≤ c && c ≤ Char.ofNat 0x200A) ||
  c == Char.ofNat 0x2028 || c == Char.ofNat 0x2029 ||
  c == Char.ofNat 0x202F || c == Char.ofNat 0x205F || c == Char.ofNat 0x3000

/-- Line boundaries recognised by Python `str.splitlines`. -/
def isLineBreak (c : Char) : Bool :=
  c == '\n' || c == Char.ofNat 0x0D || c == Char.ofNat 0x0B ||
  c == Char.ofNat 0x0C || c == Char.ofNat 0x1C || c == Char.ofNat 0x1D ||
  c == Char.ofNat 0x1E || c == Char.ofNat 0x85 ||
  c == Char.ofNat 0x2028 || c == Char.ofNat 0x2029

/-- ASCII lower-casing of one character (`str.lower` restricted to ASCII,
which is all the schemes and group types need). -/
def asciiLower (c : Char) : Char :=
  if 'A' ≤ c && c ≤ 'Z' then Char.ofNat (c.toNat + 32) else c

/-- Python `str.lower` (ASCII fragment). -/
def pyLower (l : List Char) : List Char := l.map asciiLower

/-! ### List-of-char primitives mirroring Python `str` methods -/

/-- Drop trailing characters satisfying `p`. -/
def dropWhileEnd (p : Char → Bool) (l : List Char) : List Char :=
  (l.reverse.dropWhile p).reverse

/-- Python `str.strip()` (no arguments): strip whitespace on both ends. -/
def pyStrip (l : List Char) : List Char :=
  dropWhileEnd isPyWs (l.dropWhile isPyWs)

/-- Worker for `pySplitlines`; `acc` is the line collected so far. -/
def splitlinesGo : List Char → List Char → List (List Char)
  | [], acc => if acc.isEmpty then [] else [acc]
  | [c], acc => if isLineBreak c then [acc] else [acc ++ [c]]
  | c :: d :: rest, acc =>
    if c == Char.ofNat 0x0D && d == '\n' then acc :: splitlinesGo rest []
    else if isLineBreak c then acc :: splitlinesGo (d :: rest) []
    else splitlinesGo (d :: rest) (acc ++ [c])

/-- Python `str.splitlines()`: split at line boundaries, `\r\n` counting as a
single boundary, with no trailing empty line. -/
def pySplitlines (l : List Char) : List (List Char) := splitlinesGo l []

/-- Worker for `pySplitWs`. -/
def splitWsGo : List Char → List Char → List (List Char)
  | [], acc => if acc.isEmpty then [] else [acc]
  | c :: rest, acc =>
    if isPyWs c then
      if acc.isEmpty then splitWsGo rest [] else acc :: splitWsGo rest []
    else splitWsGo rest (acc ++ [c])

/-- Python `str.split()` (no arguments): split on whitespace runs, dropping
empty pieces. -/
def pySplitWs (l : List Char) : List (List Char) := splitWsGo l []

/-- Concatenation of pieces (`"".join(...)`). -/
def concatAll : List (List Char) → List Char
  | [] => []
  | x :: xs => x ++ concatAll xs

/-- `sep.join(parts)` for a list-of-char separator. -/
def joinSep (sep : List Char) : List (List Char) → List Char
  | [] => []
  | [x] => x
  | x :: y :: xs => x ++ sep ++ joinSep sep (y :: xs)

/-- Whether `pat` occurs as a contiguous substring (Python `pat in s`). -/
def containsSub (pat : List Char) : List Char → Bool
  | [] => pat.isEmpty
  | c :: rest => pat.isPrefixOf (c :: rest) || containsSub pat rest

/-- Split at the first occurrence of `pat` (Python `s.split(pat, 1)` when it
finds a separator); `none` when `pat` does not occur. -/
def splitOnceL (pat : List Char) : List Char → Option (List Char × List Char)
  | [] => if pat.isEmpty then some ([], []) else none
  | c :: rest =>
    if pat.isPrefixOf (c :: rest) then some ([], (c :: rest).drop pat.length)
    else
      match splitOnceL pat rest with
      | some (a, b) => some (c :: a, b)
      | none => none

/-- The part before the first occurrence of `pat`, or the whole string
(Python `s.split(pat)[0]`). -/
def headBefore (pat : List Char) (l : List Char) : List Char :=
  match splitOnceL pat l with
  | some (a, _) => a
  | none => l

/-- Python `s.split(sep)` for a one-character separator. -/
def splitAllChar (sep : Char) : List Char → List (List Char)
  | [] => [[]]
  | c :: rest =>
    if c == sep then [] :: splitAllChar sep rest
    else
      match splitAllChar sep rest with
      | [] => [[c]]
      | a :: as => (c :: a) :: as

/-- Python `s.split(sep, 1)` for a one-character separator. -/
def splitOnceChar (sep : Char) : List Char → Option (List Char × List Char)
  | [] => none
  | c :: rest =>
    if c == sep then some ([], rest)
    else
      match splitOnceChar sep rest with
      | some (a, b) => some (c :: a, b)
      | none => none

/-- Python `s.rpartition(sep)` restricted to the pieces the source uses:
split at the last occurrence, `none` when absent. -/
def splitLastChar (sep : Char) : List Char → Option (List Char × List Char)
  | [] => none
  | c :: rest =>
    match splitLastChar sep rest with
    | some (a, b) => some (c :: a, b)
    | none => if c == sep then some ([], rest) else none

/-! ### Python / JSON / YAML values

`PyV` models the dynamically-typed values the source passes around: strings,
ints, booleans, `None`, lists and (string-keyed, insertion-ordered) dicts.
Floats do not occur in any code path the claims touch and are not modelled;
the JSON reader rejects them. -/

inductive PyV where
  | s (v : String)
  | i (v : Int)
  | b (v : Bool)
  | null
  | seq (l : List PyV)
  | map (l : List (String × PyV))

/-- First-match lookup in a dict (`d.get(k)` / `d[k]`; dict keys are unique,
so first match is the match). -/
def lookupKV (k : String) : List (String × PyV) → Option PyV
  | [] => none
  | (k2, v) :: rest => if k2 = k then some v else lookupKV k rest

/-- Python dict assignment `d[k] = v`: replace in place when the key exists,
append at the end otherwise. -/
def setKV (k : String) (v : PyV) : List (String × PyV) → List (String × PyV)
  | [] => [(k, v)]
  | (k2, w) :: rest => if k2 = k then (k2, v) :: rest else (k2, w) :: setKV k v rest

/-- `d.get(k, default)`. -/
def getKV (k : String) (d : PyV) (kvs : List (String × PyV)) : PyV :=
  (lookupKV k kvs).getD d

mutual
/-- Python `==` on `PyV` values.  `True == 1` and `False == 0` hold as in
Python; dict equality is modelled pairwise in insertion order (no code path
compared by the claims compares two dicts). -/
def pyEqB : PyV → PyV → Bool
  | .s a, .s c => a = c
  | .i a, .i c => a = c
  | .b a, .b c => a = c
  | .i a, .b c => a = (if c then 1 else 0)
  | .b a, .i c => (if a then (1 : Int) else 0) = c
  | .null, .null => true
  | .seq a, .seq c => pyEqSeq a c
  | .map a, .map c => pyEqMap a c
  | _, _ => false
def pyEqSeq : List PyV → List PyV → Bool
  | [], [] => true
  | a :: as, c :: cs => pyEqB a c && pyEqSeq as cs
  | _, _ => false
def pyEqMap : List (String × PyV) → List (String × PyV) → Bool
  | [], [] => true
  | (k, v) :: as, (k2, v2) :: cs => k = k2 && pyEqB v v2 && pyEqMap as cs
  | _, _ => false
end

/-- `type(v).__name__` for the plain-Python value shapes. -/
def pyTypeName : PyV → String
  | .s _ => "str"
  | .i _ => "int"
  | .b _ => "bool"
  | .null => "NoneType"
  | .seq _ => "list"
  | .map _ => "dict"

mutual
/-- Python `str(v)`.  Container values render to a bracketed form; the merge
only ever lower-cases the result and compares it against group-type names, so
the precise `repr` of nested containers is immaterial (they can never equal a
group-type word). -/
def pyStr : PyV → String
  | .s v => v
  | .i v => toString v
  | .b true => "True"
  | .b false => "False"
  | .null => "None"
  | .seq l => "[" ++ pyStrSeq l ++ "]"
  | .map l => "\x7b" ++ pyStrMap l ++ "\x7d"
def pyStrSeq : List PyV → String
  | [] => ""
  | [x] => pyStr x
  | x :: y :: xs => pyStr x ++ ", " ++ pyStrSeq (y :: xs)
def pyStrMap : List (String × PyV) → String
  | [] => ""
  | [(k, v)] => "\x27" ++ k ++ "\x27: " ++ pyStr v
  | (k, v) :: y :: xs => "\x27" ++ k ++ "\x27: " ++ pyStr v ++ ", " ++ pyStrMap (y :: xs)
end

/-- Python truthiness `x or y` for an optional string on the left (`None` and
`""` are falsy). -/
def pyOrStr (x : Option String) (y : PyV) : PyV :=
  match x with
  | some v => if v = "" then y else .s v
  | none => y

/-- Lift an optional string into a `PyV` (`None` becomes `null`). -/
def optStr : Option String → PyV
  | some v => .s v
  | none => .null

/-! ### `int()` (CPython string-to-int conversion, base 10) -/

/-- Digits possibly separated by single underscores (CPython accepts
`1_000`); no leading, trailing, or doubled underscore. -/
def digitsUnder : List Char → Option Nat
  | [] => none
  | [c] => if c.isDigit then some (c.toNat - 48) else none
  | c :: d :: rest =>
    if c.isDigit then
      match (if d == '_' then
               match rest with
               | e :: rest2 => if e.isDigit then digitsUnder (e :: rest2) else none
               | [] => none
             else digitsUnder (d :: rest)) with
      | some v =>
        some ((c.toNat - 48) * 10 ^ (((if d == '_' then rest else d :: rest).filter
          (fun x => x.isDigit)).length) + v)
      | none => none
    else none

/-- CPython `int(s)` / `int(s, 10)`: optional surrounding whitespace, an
optional sign, then underscore-separated digits. -/
def pyInt (l : List Char) : Option Int :=
  let l := pyStrip l
  match l with
  | '+' :: rest => (digitsUnder rest).map (fun n => (n : Int))
  | '-' :: rest => (digitsUnder rest).map (fun n => -(n : Int))
  | _ => (digitsUnder l).map (fun n => (n : Int))

/-! ### UTF-8 (`bytes.decode`/`str.encode` as used by the source) -/

/-- UTF-8 bytes of one character. -/
def utf8EncodeChar (c : Char) : List Nat :=
  let n := c.toNat
  if n < 0x80 then [n]
  else if n < 0x800 then [0xC0 + n / 64, 0x80 + n % 64]
  else if n < 0x10000 then
    [0xE0 + n / 4096, 0x80 + (n / 64) % 64, 0x80 + n % 64]
  else
    [0xF0 + n / 262144, 0x80 + (n / 4096) % 64, 0x80 + (n / 64) % 64, 0x80 + n % 64]

/-- UTF-8 encoding of a character list (`s.encode("utf-8")`). -/
def utf8EncodeL : List Char → List Nat
  | [] => []
  | c :: cs => utf8EncodeChar c ++ utf8EncodeL cs

/-- A UTF-8 continuation byte. -/
def contB (x : Nat) : Bool := 0x80 ≤ x && x ≤ 0xBF

/-- One step of `bytes.decode("utf-8", errors="replace")`: decode the
sequence starting at byte `x` (continuations in `xs`), or produce U+FFFD,
returning the remaining bytes.  Overlong encodings, surrogates and
out-of-range values are rejected exactly as CPython does. -/
def utf8Step (x : Nat) (xs : List Nat) : Char × List Nat :=
  if x < 0x80 then (Char.ofNat x, xs)
  else if x < 0xC2 then (replChar, xs)
  else if x < 0xE0 then
    match xs with
    | x1 :: xs1 =>
      if contB x1 then (Char.ofNat ((x - 0xC0) * 64 + (x1 - 0x80)), xs1) else (replChar, xs)
    | [] => (replChar, [])
  else if x < 0xF0 then
    match xs with
    | x1 :: x2 :: xs2 =>
      if contB x1 && contB x2 then
        if 0x800 ≤ (x - 0xE0) * 4096 + (x1 - 0x80) * 64 + (x2 - 0x80) &&
           !(0xD800 ≤ (x - 0xE0) * 4096 + (x1 - 0x80) * 64 + (x2 - 0x80) &&
             (x - 0xE0) * 4096 + (x1 - 0x80) * 64 + (x2 - 0x80) ≤ 0xDFFF) then
          (Char.ofNat ((x - 0xE0) * 4096 + (x1 - 0x80) * 64 + (x2 - 0x80)), xs2)
        else (replChar, x1 :: x2 :: xs2)
      else (replChar, x1 :: x2 :: xs2)
    | [x1] => if contB x1 then (replChar, []) else (replChar, [x1])
    | [] => (replChar, [])
  else if x < 0xF5 then
    match xs with
    | x1 :: x2 :: x3 :: xs3 =>
      if contB x1 && contB x2 && contB x3 then
        if 0x10000 ≤ (x - 0xF0) * 262144 + (x1 - 0x80) * 4096 + (x2 - 0x80) * 64 + (x3 - 0x80) &&
           (x - 0xF0) * 262144 + (x1 - 0x80) * 4096 + (x2 - 0x80) * 64 + (x3 - 0x80) < 0x110000 then
          (Char.ofNat ((x - 0xF0) * 262144 + (x1 - 0x80) * 4096 + (x2 - 0x80) * 64 + (x3 - 0x80)),
           xs3)
        else (replChar, x1 :: x2 :: x3 :: xs3)
      else (replChar, x1 :: x2 :: x3 :: xs3)
    | [x1, x2] => if contB x1 && contB x2 then (replChar, []) else (replChar, [x1, x2])
    | [x1] => if contB x1 then (replChar, []) else (replChar, [x1])
    | [] => (replChar, [])
  else (replChar, xs)

/-- Fuel-driven loop for the replacing UTF-8 decoder; each step consumes at
least one byte, so `l.length` fuel always suffices. -/
def utf8DecGo : Nat → List Nat → List Char
  | 0, _ => []
  | _ + 1, [] => []
  | fuel + 1, x :: xs => (utf8Step x xs).1 :: utf8DecGo fuel (utf8Step x xs).2

/-- `bytes.decode("utf-8", errors="replace")`: total decoding, one U+FFFD
per rejected byte/truncated sequence. -/
def utf8DecodeReplace (l : List Nat) : List Char := utf8DecGo l.length l

/-- `bytes.decode("utf-8")` (strict, as in the vmess and ss decoders):
`none` models `UnicodeDecodeError`. -/
def utf8DecodeStrict : List Nat → Option (List Char)
  | [] => some []
  | x :: xs =>
    if x < 0x80 then (utf8DecodeStrict xs).map (Char.ofNat x :: ·)
    else if x < 0xC2 then none
    else if x < 0xE0 then
      match xs with
      | x1 :: xs1 =>
        if contB x1 then
          (utf8DecodeStrict xs1).map (Char.ofNat ((x - 0xC0) * 64 + (x1 - 0x80)) :: ·)
        else none
      | [] => none
    else if x < 0xF0 then
      match xs with
      | x1 :: x2 :: xs2 =>
        if contB x1 && contB x2 then
          if 0x800 ≤ (x - 0xE0) * 4096 + (x1 - 0x80) * 64 + (x2 - 0x80) &&
             !(0xD800 ≤ (x - 0xE0) * 4096 + (x1 - 0x80) * 64 + (x2 - 0x80) &&
               (x - 0xE0) * 4096 + (x1 - 0x80) * 64 + (x2 - 0x80) ≤ 0xDFFF) then
            (utf8DecodeStrict xs2).map
              (Char.ofNat ((x - 0xE0) * 4096 + (x1 - 0x80) * 64 + (x2 - 0x80)) :: ·)
          else none
        else none
      | _ => none
    else if x < 0xF5 then
      match xs with
      | x1 :: x2 :: x3 :: xs3 =>
        if contB x1 && contB x2 && contB x3 then
          if 0x10000 ≤ (x - 0xF0) * 262144 + (x1 - 0x80) * 4096 + (x2 - 0x80) * 64 + (x3 - 0x80) &&
             (x - 0xF0) * 262144 + (x1 - 0x80) * 4096 + (x2 - 0x80) * 64 + (x3 - 0x80) < 0x110000 then
            (utf8DecodeStrict xs3).map
              (Char.ofNat ((x - 0xF0) * 262144 + (x1 - 0x80) * 4096 + (x2 - 0x80) * 64 + (x3 - 0x80)) :: ·)
          else none
        else none
      | _ => none
    else none

/-! ### Base64 (CPython `base64.b64decode` / `binascii.a2b_base64`, legacy
non-strict mode, and `base64.b64encode`) -/

/-- Value of a standard-alphabet base64 character. -/
def b64Val (c : Char) : Option Nat :=
  if 'A' ≤ c && c ≤ 'Z' then some (c.toNat - 65)
  else if 'a' ≤ c && c ≤ 'z' then some (c.toNat - 71)
  else if '0' ≤ c && c ≤ '9' then some (c.toNat + 4)
  else if c == '+' then some 62
  else if c == '/' then some 63
  else none

/-- Standard-alphabet base64 character of a 6-bit value. -/
def b64Chr (n : Nat) : Char :=
  if n < 26 then Char.ofNat (65 + n)
  else if n < 52 then Char.ofNat (71 + n)
  else if n < 62 then Char.ofNat (n - 4)
  else if n == 62 then '+'
  else '/'

/-- Whether the next base64-relevant character (alphabet or pad) is a pad;
mirrors `binascii_find_valid` as used for the mid-quad pad rule. -/
def nextValidIsPad : List Char → Bool
  | [] => false
  | c :: rest =>
    if c == '=' then true
    else if (b64Val c).isSome then false
    else nextValidIsPad rest

/-- `binascii.a2b_base64` in legacy (non-strict) mode: invalid characters are
skipped; a pad character inside the first half of a quad is ignored; a pad
closing a quad ends the input; leftover bits at the end raise
`binascii.Error` (modelled as `none`).  `qp` is the position in the current
quad, `lc` the pending bits. -/
def a2b : List Char → Nat → Nat → Option (List Nat)
  | [], qp, _ => if qp == 0 then some [] else none
  | c :: rest, qp, lc =>
    if c == '=' then
      if qp ≥ 3 then some []
      else if qp == 2 then
        if nextValidIsPad rest then some [] else a2b rest qp lc
      else a2b rest qp lc
    else
      match b64Val c with
      | none => a2b rest qp lc
      | some v =>
        match qp with
        | 0 => a2b rest 1 v
        | 1 => (a2b rest 2 ((lc * 64 + v) % 16)).map (fun bs => (lc * 64 + v) / 16 :: bs)
        | 2 => (a2b rest 3 ((lc * 64 + v) % 4)).map (fun bs => (lc * 64 + v) / 4 :: bs)
        | _ => (a2b rest 0 0).map (fun bs => (lc * 64 + v) :: bs)

/-- `base64.b64decode` on a `str` argument: the string must be pure ASCII
(`s.encode("ascii")`), then legacy `a2b_base64` runs. -/
def pyB64decodeL (l : List Char) : Option (List Nat) :=
  if l.all (fun c => c.toNat < 128) then a2b l 0 0 else none

/-- `base64.urlsafe_b64decode`: translate `-`/`_` to `+`/`/` first. -/
def pyUrlsafeB64decodeL (l : List Char) : Option (List Nat) :=
  pyB64decodeL (l.map (fun c => if c == '-' then '+' else if c == '_' then '/' else c))

/-- `base64.b64encode` over byte values. -/
def b64encodeBytes : List Nat → List Char
  | [] => []
  | [b0] => [b64Chr (b0 / 4), b64Chr (b0 % 4 * 16), '=', '=']
  | [b0, b1] => [b64Chr (b0 / 4), b64Chr (b0 % 4 * 16 + b1 / 16), b64Chr (b1 % 16 * 4), '=']
  | b0 :: b1 :: b2 :: bs =>
    b64Chr (b0 / 4) :: b64Chr (b0 % 4 * 16 + b1 / 16) :: b64Chr (b1 % 16 * 4 + b2 / 64) ::
      b64Chr (b2 % 64) :: b64encodeBytes bs

/-! ### Percent-decoding (`urllib.parse.unquote`, `errors="replace"`) -/

/-- Hex digit value. -/
def hexVal (c : Char) : Option Nat :=
  if '0' ≤ c && c ≤ '9' then some (c.toNat - 48)
  else if 'a' ≤ c && c ≤ 'f' then some (c.toNat - 87)
  else if 'A' ≤ c && c ≤ 'F' then some (c.toNat - 55)
  else none

/-- Worker for `pyUnquote`: `acc` holds percent-decoded bytes not yet flushed
through the (replacing) UTF-8 decoder; consecutive `%XX` escapes decode as one
byte run, as CPython does. -/
def unquoteGo : List Char → List Nat → List Char
  | [], acc => utf8DecodeReplace acc
  | '%' :: h1 :: h2 :: rest2, acc =>
    match hexVal h1, hexVal h2 with
    | some a, some b2 => unquoteGo rest2 (acc ++ [a * 16 + b2])
    | _, _ => utf8DecodeReplace acc ++ '%' :: unquoteGo (h1 :: h2 :: rest2) []
  | '%' :: rest, acc => utf8DecodeReplace acc ++ '%' :: unquoteGo rest []
  | c :: rest, acc => utf8DecodeReplace acc ++ c :: unquoteGo rest []

/-- `urllib.parse.unquote` (default `errors="replace"`). -/
def pyUnquote (l : List Char) : List Char := unquoteGo l []

/-- `urllib.parse.unquote_plus`-style decoding used by `parse_qs`: `+`
becomes a space, then percent-decoding. -/
def pyUnquotePlus (l : List Char) : List Char :=
  pyUnquote (l.map (fun c => if c == '+' then ' ' else c))

/-! ### Query-string parsing (`urllib.parse.parse_qs`) -/

/-- `parse_qsl` with the defaults the source relies on: split on `&`, skip
empty fields, skip fields without `=` or with an empty raw value
(`keep_blank_values=False`), unquote names and values. -/
def parseQsl (query : List Char) : List (String × String) :=
  (splitAllChar '&' query).filterMap (fun pair =>
    if pair.isEmpty then none
    else
      match splitOnceChar '=' pair with
      | none => none
      | some (n, v) =>
        if v.isEmpty then none
        else some (String.mk (pyUnquotePlus n), String.mk (pyUnquotePlus v)))

/-- `qs.get(key, [default])[0]` for the grouped `parse_qs` dict: the first
value bound to `key`, in field order. -/
def qsGet (qs : List (String × String)) (key : String) : Option String :=
  (qs.find? (fun p => p.1 == key)).map Prod.snd

/-- `key in qs` for the grouped `parse_qs` dict. -/
def qsHas (qs : List (String × String)) (key : String) : Bool :=
  qs.any (fun p => p.1 == key)

/-! ### URL splitting (`urllib.parse.urlparse` / `urlsplit`, the pieces the
decoders read: scheme, netloc, query, and the netloc-derived `username`,
`hostname`, `port` properties) -/

/-- Result of `urlsplit` restricted to the components the source reads. -/
structure UrlSplitResult where
  scheme : List Char
  netloc : List Char
  query : List Char

/-- Characters allowed in a URL scheme. -/
def isSchemeChar (c : Char) : Bool :=
  c.isAlpha || c.isDigit || c == '+' || c == '-' || c == '.'

/-- CPython `urlsplit`: strip tab/CR/LF, split off a scheme (only when the
part before the first `:` is a well-formed scheme name), read the netloc
after `//` up to `/`, `?` or `#`, then split fragment and query.  A netloc
with unbalanced square brackets raises `ValueError` (`none`). -/
def urlsplitL (url0 : List Char) : Option UrlSplitResult :=
  let url1 := url0.filter (fun c => !(c == '\t' || c == '\n' || c == Char.ofNat 0x0D))
  let sp :=
    match splitOnceChar ':' url1 with
    | some (b :: bs, after) =>
      if b.isAlpha && (b :: bs).all isSchemeChar then (pyLower (b :: bs), after)
      else (([] : List Char), url1)
    | _ => (([] : List Char), url1)
  let scheme := sp.1
  let nl :=
    match sp.2 with
    | '/' :: '/' :: rest =>
      (rest.takeWhile (fun c => !(c == '/' || c == '?' || c == '#')),
       rest.dropWhile (fun c => !(c == '/' || c == '?' || c == '#')))
    | other => (([] : List Char), other)
  let netloc := nl.1
  if (netloc.contains '[' && !netloc.contains ']') ||
     (netloc.contains ']' && !netloc.contains '[') then none
  else
    let url4 :=
      match splitOnceChar '#' nl.2 with
      | some (bef, _) => bef
      | none => nl.2
    let query :=
      match splitOnceChar '?' url4 with
      | some (_, aft) => aft
      | none => ([] : List Char)
    some ⟨scheme, netloc, query⟩

/-- `u.username`: the part of the userinfo before the first `:`; `None` when
the netloc has no `@`. -/
def netlocUsername (netloc : List Char) : Option (List Char) :=
  (splitLastChar '@' netloc).map (fun p =>
    match splitOnceChar ':' p.1 with
    | some (u, _) => u
    | none => p.1)

/-- The raw `(hostname, port)` pieces of the netloc (CPython `_hostinfo`). -/
def netlocHostPort (netloc : List Char) : List Char × List Char :=
  let hostinfo :=
    match splitLastChar '@' netloc with
    | some (_, hi) => hi
    | none => netloc
  match splitOnceChar '[' hostinfo with
  | some (_, bracketed) =>
    match splitOnceChar ']' bracketed with
    | some (hostname, afterBr) =>
      (hostname,
       match splitOnceChar ':' afterBr with
       | some (_, p) => p
       | none => [])
    | none => (bracketed, [])
  | none =>
    match splitOnceChar ':' hostinfo with
    | some (h, p) => (h, p)
    | none => (hostinfo, [])

/-- `u.hostname`: lower-cased, `None` when empty; an IPv6 zone after `%` is
kept unlowered. -/
def urlHostname (netloc : List Char) : Option (List Char) :=
  let h := (netlocHostPort netloc).1
  if h.isEmpty then none
  else
    match splitOnceChar '%' h with
    | some (hn, zone) => some (pyLower hn ++ '%' :: zone)
    | none => some (pyLower h)

/-- `u.port`: `some none` when absent, `some (some p)` for a port in
`0..65535`, and `none` when the property raises `ValueError`.  CPython
accepts only ASCII digits here (`port.isdigit() and port.isascii()`), not
full `int()` syntax. -/
def urlPort (netloc : List Char) : Option (Option Int) :=
  let p := (netlocHostPort netloc).2
  if p.isEmpty then some none
  else if p.all (fun c => '0' ≤ c && c ≤ '9') then
    let v : Nat := p.foldl (fun acc d => acc * 10 + (d.toNat - 48)) 0
    if v ≤ 65535 then some (some (Int.ofNat v)) else none
  else none

/-! ### JSON (`json.loads`, as needed by the vmess decoder)

Floats (numbers with a fraction or exponent, `NaN`, `Infinity`) are not
modelled: the reader rejects them.  A lone UTF-16 surrogate escape (which
CPython would keep in the `str`) is replaced by U+FFFD, since Lean `Char`
carries only scalar values; no claim inspects such a string. -/

/-- JSON whitespace. -/
def jsonWs (c : Char) : Bool :=
  c == ' ' || c == '\t' || c == '\n' || c == Char.ofNat 0x0D

/-- Four hex digits. -/
def hex4 (a b2 c d : Char) : Option Nat :=
  match hexVal a, hexVal b2, hexVal c, hexVal d with
  | some x, some y, some z, some w => some (x * 4096 + y * 256 + z * 16 + w)
  | _, _, _, _ => none

/-- Body of a JSON string after the opening quote: returns the decoded
characters and the rest after the closing quote. -/
def jsonStringBody : List Char → Option (List Char × List Char)
  | [] => none
  | '\\' :: 'u' :: a :: b2 :: c2 :: d :: '\\' :: 'u' :: a2 :: b3 :: c3 :: d2 :: rest4 =>
    (match hex4 a b2 c2 d with
     | none => none
     | some n =>
       if 0xD800 ≤ n && n ≤ 0xDBFF then
         match hex4 a2 b3 c3 d2 with
         | some m =>
           if 0xDC00 ≤ m && m ≤ 0xDFFF then
             (jsonStringBody rest4).map (fun p =>
               (Char.ofNat (0x10000 + (n - 0xD800) * 1024 + (m - 0xDC00)) :: p.1, p.2))
           else
             (jsonStringBody ('\\' :: 'u' :: a2 :: b3 :: c3 :: d2 :: rest4)).map
               (fun p => (replChar :: p.1, p.2))
         | none =>
           (jsonStringBody ('\\' :: 'u' :: a2 :: b3 :: c3 :: d2 :: rest4)).map
             (fun p => (replChar :: p.1, p.2))
       else if 0xDC00 ≤ n && n ≤ 0xDFFF then
         (jsonStringBody ('\\' :: 'u' :: a2 :: b3 :: c3 :: d2 :: rest4)).map
           (fun p => (replChar :: p.1, p.2))
       else
         (jsonStringBody ('\\' :: 'u' :: a2 :: b3 :: c3 :: d2 :: rest4)).map
           (fun p => (Char.ofNat n :: p.1, p.2)))
  | '\\' :: 'u' :: a :: b2 :: c2 :: d :: rest3 =>
    (match hex4 a b2 c2 d with
     | none => none
     | some n =>
       if 0xD800 ≤ n && n ≤ 0xDFFF then
         (jsonStringBody rest3).map (fun p => (replChar :: p.1, p.2))
       else (jsonStringBody rest3).map (fun p => (Char.ofNat n :: p.1, p.2)))
  | '\\' :: e :: rest2 =>
    (match
      (if e == '"' then some '"'
       else if e == '\\' then some '\\'
       else if e == '/' then some '/'
       else if e == 'b' then some (Char.ofNat 0x08)
       else if e == 'f' then some (Char.ofNat 0x0C)
       else if e == 'n' then some '\n'
       else if e == 'r' then some (Char.ofNat 0x0D)
       else if e == 't' then some '\t'
       else none) with
     | some ch => (jsonStringBody rest2).map (fun p => (ch :: p.1, p.2))
     | none => none)
  | ['\\'] => none
  | c :: rest =>
    if c == '"' then some ([], rest)
    else if c.toNat < 0x20 then none
    else (jsonStringBody rest).map (fun p => (c :: p.1, p.2))

/-- JSON integer literal: optional `-`, no leading zeros; a following `.`,
`e` or `E` means a float, which the model rejects. -/
def jsonNumber (l : List Char) : Option (PyV × List Char) :=
  let core : List Char → Option (Nat × List Char) := fun m =>
    match m with
    | [] => none
    | c :: rest =>
      if c == '0' then some (0, rest)
      else if c.isDigit then
        let ds := rest.takeWhile Char.isDigit
        some (((c :: ds).foldl (fun acc d => acc * 10 + (d.toNat - 48)) 0),
          rest.dropWhile Char.isDigit)
      else none
  match l with
  | '-' :: rest =>
    match core rest with
    | some (n, rest2) =>
      match rest2 with
      | c :: _ =>
        if c == '.' || c == 'e' || c == 'E' then none else some (.i (-(n : Int)), rest2)
      | [] => some (.i (-(n : Int)), [])
    | none => none
  | _ =>
    match core l with
    | some (n, rest2) =>
      match rest2 with
      | c :: _ =>
        if c == '.' || c == 'e' || c == 'E' then none else some (.i (n : Int), rest2)
      | [] => some (.i (n : Int), [])
    | none => none

mutual
/-- One JSON value (fuel-bounded recursive descent, whitespace already
skipped). -/
def jsonValue : Nat → List Char → Option (PyV × List Char)
  | 0, _ => none
  | fuel + 1, l =>
    match l with
    | [] => none
    | c :: rest =>
      if c == '"' then (jsonStringBody rest).map (fun p => (.s (String.mk p.1), p.2))
      else if c == Char.ofNat 0x7B then jsonObject fuel (rest.dropWhile jsonWs) []
      else if c == '[' then jsonArray fuel (rest.dropWhile jsonWs) []
      else if ('t' :: ['r', 'u', 'e']).isPrefixOf l then some (.b true, l.drop 4)
      else if ('f' :: ['a', 'l', 's', 'e']).isPrefixOf l then some (.b false, l.drop 5)
      else if ('n' :: ['u', 'l', 'l']).isPrefixOf l then some (.null, l.drop 4)
      else jsonNumber l
/-- Members of a JSON object after `{` (whitespace skipped); duplicate keys
overwrite as dict assignment does. -/
def jsonObject : Nat → List Char → List (String × PyV) → Option (PyV × List Char)
  | 0, _, _ => none
  | fuel + 1, l, acc =>
    match l with
    | [] => none
    | c :: rest =>
      if c == Char.ofNat 0x7D then some (.map acc, rest)
      else if c == '"' then
        match jsonStringBody rest with
        | none => none
        | some (key, rest2) =>
          match rest2.dropWhile jsonWs with
          | ':' :: rest3 =>
            match jsonValue fuel (rest3.dropWhile jsonWs) with
            | none => none
            | some (v, rest4) =>
              let acc2 := setKV (String.mk key) v acc
              match rest4.dropWhile jsonWs with
              | ',' :: rest5 =>
                match (rest5.dropWhile jsonWs) with
                | '"' :: _ => jsonObject fuel (rest5.dropWhile jsonWs) acc2
                | _ => none
              | c2 :: rest6 =>
                if c2 == Char.ofNat 0x7D then some (.map acc2, rest6) else none
              | [] => none
          | _ => none
      else none
/-- Elements of a JSON array after `[` (whitespace skipped). -/
def jsonArray : Nat → List Char → List PyV → Option (PyV × List Char)
  | 0, _, _ => none
  | fuel + 1, l, acc =>
    match l with
    | [] => none
    | c :: rest =>
      if c == ']' && acc.isEmpty then some (.seq [], rest)
      else
        match jsonValue fuel l with
        | none => none
        | some (v, rest2) =>
          match rest2.dropWhile jsonWs with
          | ',' :: rest3 => jsonArray fuel (rest3.dropWhile jsonWs) (acc ++ [v])
          | ']' :: rest3 => some (.seq (acc ++ [v]), rest3)
          | _ => none
end

/-- `json.loads`: parse one value surrounded by optional whitespace. -/
def jsonLoads (l : List Char) : Option PyV :=
  match jsonValue (2 * l.length + 4) (l.dropWhile jsonWs) with
  | some (v, rest) => if (rest.dropWhile jsonWs).isEmpty then some v else none
  | none => none

/-! ### Protocol decoders (`converters.py`) -/

/-- Lift an optional integer into a `PyV`. -/
def optInt : Option Int → PyV
  | some v => .i v
  | none => .null

/-- A conditionally present dict field (`if cond: proxy[k] = v`, appended in
source order). -/
def optField (cond : Bool) (k : String) (v : PyV) : List (String × PyV) :=
  if cond then [(k, v)] else []

/-- The parsed pieces of a VLESS link (`vless_to_clash` locals up to `qs`):
fragment-derived name, `u.username`, `u.hostname`, `u.port`, parsed query.
`none` models the exceptions `urlparse`/`u.port` can raise. -/
structure VlessParts where
  name : String
  uuid : Option (List Char)
  server : Option (List Char)
  port : Option Int
  qs : List (String × String)

/-- Parse phase of `vless_to_clash`: split the `#` fragment, URL-parse the
remainder, read `username`/`hostname`/`port`/query. -/
def vlessParts (link : List Char) : Option VlessParts :=
  let pre :=
    match splitOnceChar '#' link with
    | some (a, _) => a
    | none => link
  let name :=
    match splitOnceChar '#' link with
    | some (_, tag) => String.mk (pyUnquote tag)
    | none => "VLESS_Node"
  match urlsplitL pre with
  | none => none
  | some u =>
    match urlPort u.netloc with
    | none => none
    | some port =>
      some ⟨name, netlocUsername u.netloc, urlHostname u.netloc, port, parseQsl u.query⟩

/-- `q(key)` of `vless_to_clash` (first query value, no default). -/
def vlessQ (p : VlessParts) (key : String) : Option String := qsGet p.qs key

/-- Construction phase of `vless_to_clash`: the proxy dict, fields in source
order, with the conditional fields appended exactly when the source adds
them. -/
def vlessRecord (p : VlessParts) : PyV :=
  let network := (vlessQ p "type").getD "tcp"
  let security := vlessQ p "security"
  let tls := security == some "tls" || security == some "reality"
  let wsHost := vlessQ p "host"
  let serverPy := optStr (p.server.map String.mk)
  .map (
    [("name", .s p.name), ("type", .s "vless"), ("server", serverPy),
     ("port", optInt p.port), ("udp", .b true), ("uuid", optStr (p.uuid.map String.mk)),
     ("network", .s network), ("tls", .b tls),
     ("encryption", .s ((vlessQ p "encryption").getD "none"))]
    ++ optField (qsHas p.qs "flow") "flow" (optStr (vlessQ p "flow"))
    ++ optField tls "servername"
        (pyOrStr wsHost
          (match vlessQ p "sni" with
           | some v => .s v
           | none => serverPy))
    ++ optField (qsHas p.qs "fp") "client-fingerprint" (optStr (vlessQ p "fp"))
    ++ optField (security == some "reality") "reality-opts"
        (.map [("public-key", optStr (vlessQ p "pbk")),
               ("short-id", .s ((vlessQ p "sid").getD ""))])
    ++ optField (network == "ws") "ws-opts"
        (.map [("path", .s ((vlessQ p "path").getD "/")),
               ("headers", .map [("Host", pyOrStr wsHost serverPy)])])
    ++ optField (network == "grpc") "grpc-opts"
        (.map [("grpc-service-name", .s ((vlessQ p "serviceName").getD ""))]))

/-- `vless_to_clash` from `converters.py`. -/
def vless_to_clash (link : String) : Option PyV :=
  (vlessParts link.data).map vlessRecord

/-- `vmess_to_clash` record construction from the decoded JSON dict. -/
def vmessRecord (kvs : List (String × PyV)) : PyV :=
  let network := getKV "net" (.s "tcp") kvs
  let tls := pyEqB (getKV "tls" .null kvs) (.s "tls")
  .map (
    [("name", getKV "ps" (.s "VMess_Node") kvs), ("type", .s "vmess"),
     ("server", getKV "add" .null kvs), ("port", getKV "port" .null kvs),
     ("uuid", getKV "id" .null kvs), ("alterId", getKV "aid" .null kvs),
     ("cipher", getKV "scy" (.s "auto") kvs), ("udp", .b true),
     ("network", network), ("tls", .b tls)]
    ++ optField tls "servername" (getKV "sni" (getKV "add" .null kvs) kvs)
    ++ optField (pyEqB network (.s "ws")) "ws-opts"
        (.map [("path", getKV "path" (.s "/") kvs),
               ("headers", .map [("Host", getKV "host" (getKV "add" .null kvs) kvs)])])
    ++ optField (pyEqB network (.s "grpc")) "grpc-opts"
        (.map [("grpc-service-name", getKV "path" (.s "") kvs)]))

/-- `vmess_to_clash` from `converters.py`: the payload after `vmess://` is
base64-encoded JSON; any decode failure (or a non-dict JSON value, on which
`.get` would raise) yields `None`. -/
def vmess_to_clash (link : String) : Option PyV :=
  match splitOnceL ("vmess://".data) link.data with
  | none => none
  | some (_, after) =>
    match pyB64decodeL (headBefore ("vmess://".data) after) with
    | none => none
    | some bytes =>
      match utf8DecodeStrict bytes with
      | none => none
      | some chars =>
        match jsonLoads chars with
        | some (.map kvs) => some (vmessRecord kvs)
        | _ => none

/-- The parsed pieces of a Trojan link. -/
structure TrojanParts where
  name : String
  server : Option (List Char)
  port : Option Int
  password : Option (List Char)
  qs : List (String × String)

/-- Parse phase of `trojan_to_clash`. -/
def trojanParts (link : List Char) : Option TrojanParts :=
  let pre :=
    match splitOnceChar '#' link with
    | some (a, _) => a
    | none => link
  let name :=
    match splitOnceChar '#' link with
    | some (_, tag) => String.mk (pyUnquote tag)
    | none => "Trojan_Node"
  match urlsplitL pre with
  | none => none
  | some u =>
    match urlPort u.netloc with
    | none => none
    | some port =>
      some ⟨name, urlHostname u.netloc, port, netlocUsername u.netloc, parseQsl u.query⟩

/-- Construction phase of `trojan_to_clash`. -/
def trojanRecord (p : TrojanParts) : PyV :=
  .map
    [("name", .s p.name), ("type", .s "trojan"),
     ("server", optStr (p.server.map String.mk)), ("port", optInt p.port),
     ("password", optStr (p.password.map String.mk)), ("udp", .b true),
     ("sni", match qsGet p.qs "sni" with
             | some v => .s v
             | none => optStr (p.server.map String.mk))]

/-- `trojan_to_clash` from `converters.py`. -/
def trojan_to_clash (link : String) : Option PyV :=
  (trojanParts link.data).map trojanRecord

/-- `ss_to_clash` from `converters.py` (SIP002): both credential layouts,
with `"=="` appended before urlsafe base64 decoding. -/
def ss_to_clash (link : String) : Option PyV :=
  let l := link.data
  if ("ss://".data).isPrefixOf l then
    let afterScheme := l.drop 5
    let nm :=
      match splitOnceChar '#' afterScheme with
      | some (u2, tag) => (u2, String.mk (pyUnquote tag))
      | none => (afterScheme, "SS_Node")
    let parsed :=
      match splitOnceChar '@' nm.1 with
      | some (encCred, serverPort) =>
        match pyUrlsafeB64decodeL (encCred ++ ['=', '=']) with
        | none => none
        | some bytes =>
          match utf8DecodeStrict bytes with
          | none => none
          | some cred =>
            match splitOnceChar ':' cred with
            | some (m, pw) => some (m, pw, serverPort)
            | none => none
      | none =>
        match pyUrlsafeB64decodeL (nm.1 ++ ['=', '=']) with
        | none => none
        | some bytes =>
          match utf8DecodeStrict bytes with
          | none => none
          | some decoded =>
            match splitOnceChar ':' decoded with
            | none => none
            | some (m, rest) =>
              match splitOnceChar '@' rest with
              | none => none
              | some (pw, serverPort) => some (m, pw, serverPort)
    match parsed with
    | none => none
    | some (m, pw, serverPort) =>
      match splitOnceChar ':' serverPort with
      | none => none
      | some (server, portStr) =>
        match pyInt portStr with
        | none => none
        | some port =>
          some (.map
            [("name", .s nm.2), ("type", .s "ss"), ("server", .s (String.mk server)),
             ("port", .i port), ("cipher", .s (String.mk m)),
             ("password", .s (String.mk pw))])
  else none

/-- `link_to_clash` from `converters.py`: route on the lower-cased part
before the first `"://"` (the whole string when `"://"` is absent, which is
what `link.split("://")[0]` yields). -/
def link_to_clash (link : String) : Option PyV :=
  let protocol := String.mk (pyLower (headBefore ("://".data) link.data))
  if protocol = "vless" then vless_to_clash link
  else if protocol = "vmess" then vmess_to_clash link
  else if protocol = "trojan" then trojan_to_clash link
  else if protocol = "ss" then ss_to_clash link
  else none

/-! ### Subscription decoder and YAML merge (`convert_subscription.py`) -/

/-- `parse_subscription`: strip, try base64 (on the whitespace-stripped
form), accept the decode only when some decoded line contains `"://"`,
otherwise fall back to plain-text lines. -/
def parse_subscription (content : String) : List String :=
  let c := pyStrip content.data
  if c.isEmpty then []
  else
    let fallb := (((pySplitlines c).map pyStrip).filter (fun l => !l.isEmpty)).map String.mk
    match pyB64decodeL (concatAll (pySplitWs c)) with
    | some bytes =>
      let lines := ((pySplitlines (utf8DecodeReplace bytes)).map pyStrip).filter
        (fun l => !l.isEmpty)
      if lines.any (fun l => containsSub ("://".data) l) then lines.map String.mk
      else fallb
    | none => fallb

/-- The acceptance test of the base64 branch of `parse_subscription`: the
whitespace-stripped-and-joined text decodes as base64 AND some decoded
trimmed non-empty line contains "://". -/
def b64Heuristic (c : List Char) : Bool :=
  match pyB64decodeL (concatAll (pySplitWs c)) with
  | some bytes =>
    (((pySplitlines (utf8DecodeReplace bytes)).map pyStrip).filter
      (fun l => !l.isEmpty)).any (fun l => containsSub ("://".data) l)
  | none => false

/-- Errors `update_yaml` can raise: the `TypeError` for a non-list
`proxies`/`proxy-groups` value (carrying the offending key and the actual
type name), and the `KeyError` a nameless proxy dict would raise. -/
inductive MergeErr where
  | typeErr (key : String) (got : String)
  | keyErr (key : String)

/-- `[p["name"] for p in proxies]`; a missing name (or a non-dict entry)
raises. -/
def proxyNames : List PyV → Except MergeErr (List PyV)
  | [] => .ok []
  | p :: rest =>
    match p with
    | .map kvs =>
      match lookupKV "name" kvs with
      | some v => (proxyNames rest).map (v :: ·)
      | none => .error (.keyErr "name")
    | _ => .error (.keyErr "name")

/-- The group-append loop: add each name not already present (Python
`if name not in group_proxies: group_proxies.append(name)`). -/
def appendMissing (cur : List PyV) : List PyV → List PyV
  | [] => cur
  | n :: ns =>
    if cur.any (fun x => pyEqB x n) then appendMissing cur ns
    else appendMissing (cur ++ [n]) ns

/-- Group types eligible for `--speedtest` insertion. -/
def speedTypes : List String := ["url-test", "fallback", "load-balance"]

/-- `str(group.get("type", "")).lower()`: the group-type string used for
eligibility.  Non-dict groups and groups without a list-valued `proxies` are
skipped by `mergeGroup`; eligible groups get the new names appended
(duplicates skipped). -/
def groupTypeStr (kvs : List (String × PyV)) : String :=
  String.mk (pyLower (pyStr (getKV "type" (.s "") kvs)).data)

/-- One iteration body of the `for group in groups` loop (see
`mergeGroup`). -/
def mergeGroup (proxies : List PyV) (st man : Bool) (g : PyV) : Except MergeErr PyV :=
  match g with
  | .map kvs =>
    match lookupKV "proxies" kvs with
    | some (.seq gp) =>
      if st && speedTypes.contains (groupTypeStr kvs) then
        (proxyNames proxies).map (fun ns => .map (setKV "proxies" (.seq (appendMissing gp ns)) kvs))
      else if man && groupTypeStr kvs == "select" then
        (proxyNames proxies).map (fun ns => .map (setKV "proxies" (.seq (appendMissing gp ns)) kvs))
      else .ok g
    | _ => .ok g
  | _ => .ok g

/-- The whole group loop; the first raised error aborts the merge. -/
def mergeGroups (proxies : List PyV) (st man : Bool) : List PyV → Except MergeErr (List PyV)
  | [] => .ok []
  | g :: gs =>
    match mergeGroup proxies st man g with
    | .error e => .error e
    | .ok g2 =>
      match mergeGroups proxies st man gs with
      | .error e => .error e
      | .ok gs2 => .ok (g2 :: gs2)

/-- Stage 2 of `update_yaml` from `convert_subscription.py` (the whole
function is the pure document transform it performs between loading and
writing; the file write happens only after all of it, so an error means no
output is produced): when a flag is set, `proxy-groups` must be a list when
present, and names are appended to eligible groups. -/
def mergeStage2 (doc2 : List (String × PyV)) (proxies : List PyV) (st man : Bool) :
    Except MergeErr (List (String × PyV)) :=
  if st || man then
    match lookupKV "proxy-groups" doc2 with
    | none => .ok doc2
    | some (.seq gs) =>
      match mergeGroups proxies st man gs with
      | .error e => .error e
      | .ok gs2 => .ok (setKV "proxy-groups" (.seq gs2) doc2)
    | some v => .error (.typeErr "proxy-groups" (pyTypeName v))
  else .ok doc2

/-- Stage 1 of `update_yaml`: ensure/extend the `proxies` list.  A missing or
`None` value becomes a fresh list holding the new proxies (dict assignment
keeps/creates the key position); a list is extended in place; anything else
raises `TypeError`. -/
def update_yaml (doc : List (String × PyV)) (proxies : List PyV) (st man : Bool) :
    Except MergeErr (List (String × PyV)) :=
  match lookupKV "proxies" doc with
  | none => mergeStage2 (setKV "proxies" (.seq proxies) doc) proxies st man
  | some .null => mergeStage2 (setKV "proxies" (.seq proxies) doc) proxies st man
  | some (.seq xs) => mergeStage2 (setKV "proxies" (.seq (xs ++ proxies)) doc) proxies st man
  | some v => .error (.typeErr "proxies" (pyTypeName v))

/-- A sequence of `update_yaml` calls threaded through a document (each call
loading the previous call's output). -/
def runMerges (doc : List (String × PyV)) :
    List (List PyV × Bool × Bool) → Except MergeErr (List (String × PyV))
  | [] => .ok doc
  | (ps, st, man) :: calls =>
    match update_yaml doc ps st man with
    | .error e => .error e
    | .ok doc2 => runMerges doc2 calls

/-! ### Observation helpers used by the theorem statements -/

/-- Number of occurrences of the proxy-name string `n` in a group-member
list, counted with Python equality. -/
def countNameS (n : String) (l : List PyV) : Nat :=
  (l.filter (fun x => pyEqB x (.s n))).length

/-- The `proxy-groups` list of a document (empty when absent or non-list). -/
def docGroups (doc : List (String × PyV)) : List PyV :=
  match lookupKV "proxy-groups" doc with
  | some (.seq gs) => gs
  | _ => []

/-- The member list of one group (empty when absent or non-list). -/
def groupProxyList (g : PyV) : List PyV :=
  match g with
  | .map kvs =>
    match lookupKV "proxies" kvs with
    | some (.seq gp) => gp
    | _ => []
  | _ => []

/-- Whether a value is a Python list. -/
def isPyList : PyV → Bool
  | .seq _ => true
  | _ => false

/-- Whether the `proxies` key of a document would pass the first stage of
`update_yaml` (absent, `None`, or a list). -/
def proxiesSectionOk (doc : List (String × PyV)) : Bool :=
  match lookupKV "proxies" doc with
  | none => true
  | some .null => true
  | some (.seq _) => true
  | some _ => false

/-! ### Observation helpers and lookup lemmas -/

/-- Field access on a proxy record (`r[k]` when `r` is a dict). -/
def recordField (r : PyV) (k : String) : Option PyV :=
  match r with
  | .map kvs => lookupKV k kvs
  | _ => none

theorem lookupKV_optField_ne {k k2 : String} (c : Bool) (v : PyV)
    (rest : List (String × PyV)) (h : k2 ≠ k) :
    lookupKV k (optField c k2 v ++ rest) = lookupKV k rest := by
  cases c <;> simp [optField, lookupKV, h]

theorem optField_true (k : String) (v : PyV) : optField true k v = [(k, v)] := rfl

theorem optField_false (k : String) (v : PyV) : optField false k v = [] := rfl

/-- A successful `vless_to_clash` result is `vlessRecord` of the parse. -/
theorem vless_shape (link : String) (r : PyV) (h : vless_to_clash link = some r) :
    ∃ p, vlessParts link.data = some p ∧ r = vlessRecord p := by
  unfold vless_to_clash at h
  cases hp : vlessParts link.data with
  | none => simp [hp] at h
  | some p => simp [hp] at h; exact ⟨p, rfl, h.symm⟩

/-- A successful `trojan_to_clash` result is `trojanRecord` of the parse. -/
theorem trojan_shape (link : String) (r : PyV) (h : trojan_to_clash link = some r) :
    ∃ p, trojanParts link.data = some p ∧ r = trojanRecord p := by
  unfold trojan_to_clash at h
  cases hp : trojanParts link.data with
  | none => simp [hp] at h
  | some p => simp [hp] at h; exact ⟨p, rfl, h.symm⟩

/-- A successful `vmess_to_clash` result is `vmessRecord` of the decoded
JSON dict. -/
theorem vmess_shape (link : String) (r : PyV) (h : vmess_to_clash link = some r) :
    ∃ kvs, r = vmessRecord kvs := by
  unfold vmess_to_clash at h
  repeat' split at h
  all_goals try exact Option.noConfusion h
  all_goals (injection h with h2; exact ⟨_, h2.symm⟩)

/-- A successful `ss_to_clash` result is the six-field dict the source
builds. -/
theorem ss_shape (link : String) (r : PyV) (h : ss_to_clash link = some r) :
    ∃ nm sv pt cp pw, r = PyV.map
      [("name", .s nm), ("type", .s "ss"), ("server", .s sv), ("port", .i pt),
       ("cipher", .s cp), ("password", .s pw)] := by
  simp only [ss_to_clash] at h
  repeat' split at h
  all_goals try exact Option.noConfusion h
  all_goals (injection h with h2; exact ⟨_, _, _, _, _, h2.symm⟩)

theorem vlessRecord_type (p : VlessParts) :
    recordField (vlessRecord p) "type" = some (.s "vless") := by
  simp [vlessRecord, recordField, lookupKV]

theorem vlessRecord_udp (p : VlessParts) :
    recordField (vlessRecord p) "udp" = some (.b true) := by
  simp [vlessRecord, recordField, lookupKV]

theorem vmessRecord_type (kvs : List (String × PyV)) :
    recordField (vmessRecord kvs) "type" = some (.s "vmess") := by
  simp [vmessRecord, recordField, lookupKV]

theorem vmessRecord_udp (kvs : List (String × PyV)) :
    recordField (vmessRecord kvs) "udp" = some (.b true) := by
  simp [vmessRecord, recordField, lookupKV]

theorem trojanRecord_type (p : TrojanParts) :
    recordField (trojanRecord p) "type" = some (.s "trojan") := by
  simp [trojanRecord, recordField, lookupKV]

theorem trojanRecord_udp (p : TrojanParts) :
    recordField (trojanRecord p) "udp" = some (.b true) := by
  simp [trojanRecord, recordField, lookupKV]

/-! ### Claim C1 -/

/-- C1 counterexample: on `vless://a@b:1#` (empty fragment) the decoder
constructs and returns a record whose `name` is the empty string, so the
claimed invariant (non-empty name, else failure) is violated. -/
theorem c1_counterexample :
    (vless_to_clash "vless://a@b:1#").isSome = true ∧
    recordField ((vless_to_clash "vless://a@b:1#").getD .null) "name" = some (.s "") :=
  ⟨rfl, rfl⟩

/-- C1 (amended): every record a decoder returns carries a `type` field equal
to its scheme name, drawn from the supported set; the decoders do not
enforce non-empty `name`/`server` or the 1..65535 port range. -/
theorem c1_decoder_type_tag :
    (∀ link r, vless_to_clash link = some r → recordField r "type" = some (PyV.s "vless")) ∧
    (∀ link r, vmess_to_clash link = some r → recordField r "type" = some (PyV.s "vmess")) ∧
    (∀ link r, trojan_to_clash link = some r → recordField r "type" = some (PyV.s "trojan")) ∧
    (∀ link r, ss_to_clash link = some r → recordField r "type" = some (PyV.s "ss")) := by
  refine ⟨fun link r h => ?_, fun link r h => ?_, fun link r h => ?_, fun link r h => ?_⟩
  · obtain ⟨p, -, rfl⟩ := vless_shape link r h
    exact vlessRecord_type p
  · obtain ⟨kvs, rfl⟩ := vmess_shape link r h
    exact vmessRecord_type kvs
  · obtain ⟨p, -, rfl⟩ := trojan_shape link r h
    exact trojanRecord_type p
  · obtain ⟨nm, sv, pt, cp, pw, rfl⟩ := ss_shape link r h
    simp [recordField, lookupKV]

/-- C1 witness: the type-tag theorem applied to four concrete links that the
decoders accept. -/
theorem c1_decoder_type_tag_witness :
    recordField ((vless_to_clash "vless://").getD .null) "type" = some (PyV.s "vless") ∧
    recordField ((vmess_to_clash "vmess://e30=").getD .null) "type" = some (PyV.s "vmess") ∧
    recordField ((trojan_to_clash "trojan://").getD .null) "type" = some (PyV.s "trojan") ∧
    recordField ((ss_to_clash "ss://YWJjOmQ=@h:1").getD .null) "type" = some (PyV.s "ss") :=
  ⟨c1_decoder_type_tag.1 "vless://" _ rfl,
   c1_decoder_type_tag.2.1 "vmess://e30=" _ rfl,
   c1_decoder_type_tag.2.2.1 "trojan://" _ rfl,
   c1_decoder_type_tag.2.2.2 "ss://YWJjOmQ=@h:1" _ rfl⟩

/-! ### Claim C10 -/

/-- C10: VLESS, VMess and Trojan records always carry `udp: true`, while
Shadowsocks records never contain a `udp` key. -/
theorem c10_udp_field :
    (∀ link r, vless_to_clash link = some r → recordField r "udp" = some (PyV.b true)) ∧
    (∀ link r, vmess_to_clash link = some r → recordField r "udp" = some (PyV.b true)) ∧
    (∀ link r, trojan_to_clash link = some r → recordField r "udp" = some (PyV.b true)) ∧
    (∀ link r, ss_to_clash link = some r → recordField r "udp" = none) := by
  refine ⟨fun link r h => ?_, fun link r h => ?_, fun link r h => ?_, fun link r h => ?_⟩
  · obtain ⟨p, -, rfl⟩ := vless_shape link r h
    exact vlessRecord_udp p
  · obtain ⟨kvs, rfl⟩ := vmess_shape link r h
    exact vmessRecord_udp kvs
  · obtain ⟨p, -, rfl⟩ := trojan_shape link r h
    exact trojanRecord_udp p
  · obtain ⟨nm, sv, pt, cp, pw, rfl⟩ := ss_shape link r h
    simp [recordField, lookupKV]

/-- C10 witness: the `udp` theorem applied to concrete accepted links. -/
theorem c10_udp_field_witness :
    recordField ((vless_to_clash "vless://x@y:2").getD .null) "udp" = some (PyV.b true) ∧
    recordField ((vmess_to_clash "vmess://eyJwcyI6ICJBIn0=").getD .null) "udp" = some (PyV.b true) ∧
    recordField ((trojan_to_clash "trojan://p@q:3").getD .null) "udp" = some (PyV.b true) ∧
    recordField ((ss_to_clash "ss://YWJjOmU=@i:2").getD .null) "udp" = none :=
  ⟨c10_udp_field.1 "vless://x@y:2" _ rfl,
   c10_udp_field.2.1 "vmess://eyJwcyI6ICJBIn0=" _ rfl,
   c10_udp_field.2.2.1 "trojan://p@q:3" _ rfl,
   c10_udp_field.2.2.2 "ss://YWJjOmU=@i:2" _ rfl⟩

/-! ### Claim C2 -/

/-- C2 counterexample: the input `vless` contains no `"://"`, yet
`link_to_clash` does not return `None`: `"vless".split("://")[0]` is the
whole string, which matches a supported scheme and is dispatched. -/
theorem c2_counterexample :
    containsSub ("://".data) "vless".data = false ∧
    (link_to_clash "vless").isSome = true :=
  ⟨rfl, rfl⟩

/-- C2 (amended): whenever the lower-cased part before the first `"://"`
(the whole string when `"://"` is absent) is none of the four supported
scheme names, `link_to_clash` returns `None`; as a total function of the
embedding it never raises. -/
theorem c2_unsupported_scheme_none (link : String)
    (h1 : String.mk (pyLower (headBefore ("://".data) link.data)) ≠ "vless")
    (h2 : String.mk (pyLower (headBefore ("://".data) link.data)) ≠ "vmess")
    (h3 : String.mk (pyLower (headBefore ("://".data) link.data)) ≠ "trojan")
    (h4 : String.mk (pyLower (headBefore ("://".data) link.data)) ≠ "ss") :
    link_to_clash link = none := by
  simp [link_to_clash, h1, h2, h3, h4]

/-- C2 witness: the amended theorem at the unsupported scheme `http`. -/
theorem c2_unsupported_scheme_none_witness : link_to_clash "http://x" = none :=
  c2_unsupported_scheme_none "http://x" (by decide) (by decide) (by decide) (by decide)

/-! ### Claim C3 -/

/-- The concrete VLESS link refuting C3: websocket transport, an `sni` query
parameter, no `host` parameter. -/
def c3link : String := "vless://u@h:1?type=ws&sni=s.example#N"

/-- Nested access to `ws-opts.headers.Host` of a record. -/
def wsOptsHost (r : PyV) : Option PyV :=
  match recordField r "ws-opts" with
  | some wo =>
    match recordField wo "headers" with
    | some hs => recordField hs "Host"
    | none => none
  | none => none

/-- Modelled from the spec words of claim C3 (for refinement comparison
only): the Host header computed "with the same preference order as
servername": the `host` parameter first, then `sni`, then the server host. -/
def specHostPreference (p : VlessParts) : PyV :=
  pyOrStr (vlessQ p "host")
    (match vlessQ p "sni" with
     | some v => .s v
     | none => optStr (p.server.map String.mk))

/-- C3 counterexample: on `c3link` the decoder fills `ws-opts.headers.Host`
with the server host `h`, while the preference order the claim asserts
(host, then sni, then server) would give `s.example`: the code never
consults `sni` for the Host header. -/
theorem c3_counterexample :
    recordField ((vless_to_clash c3link).getD .null) "network" = some (.s "ws") ∧
    wsOptsHost ((vless_to_clash c3link).getD .null) = some (.s "h") ∧
    (vlessParts c3link.data).map specHostPreference = some (.s "s.example") ∧
    PyV.s "h" ≠ PyV.s "s.example" :=
  ⟨rfl, rfl, rfl, by simp⟩

/-- C3 (amended): for every VLESS link whose network is `ws`, the decoder
populates `ws-opts` with `path` defaulting to `/` and a `Host` header that
prefers the `host` query parameter and otherwise falls back to the server
host; the `sni` parameter is not consulted for the Host header. -/
theorem c3_ws_opts_host (link : String) (p : VlessParts)
    (hp : vlessParts link.data = some p)
    (hn : (vlessQ p "type").getD "tcp" = "ws") :
    vless_to_clash link = some (vlessRecord p) ∧
    recordField (vlessRecord p) "ws-opts" = some (.map
      [("path", .s ((vlessQ p "path").getD "/")),
       ("headers", .map [("Host", pyOrStr (vlessQ p "host")
          (optStr (p.server.map String.mk)))])]) := by
  constructor
  · simp [vless_to_clash, hp]
  · simp only [vlessRecord, recordField, hn]
    simp [lookupKV, lookupKV_optField_ne, optField_true, optField_false]

/-- C3 witness: the amended theorem at a concrete ws link. -/
theorem c3_ws_opts_host_witness :
    vless_to_clash "vless://u@h:1?type=ws" =
      some (vlessRecord ⟨"VLESS_Node", some ['u'], some ['h'], some 1, [("type", "ws")]⟩) ∧
    recordField (vlessRecord ⟨"VLESS_Node", some ['u'], some ['h'], some 1, [("type", "ws")]⟩)
        "ws-opts" = some (.map
      [("path", .s "/"), ("headers", .map [("Host", .s "h")])]) :=
  c3_ws_opts_host "vless://u@h:1?type=ws"
    ⟨"VLESS_Node", some ['u'], some ['h'], some 1, [("type", "ws")]⟩ rfl rfl

/-! ### Claim C9 -/

/-- C9: the Shadowsocks scenario link decodes to the asserted record, and
the two padding-shy variants (credential part before `@`, and the whole
`method:password@host:port` encoded, both without `=` padding) decode to the
same cipher/password/server/port. -/
theorem c9_ss_scenario :
    ss_to_clash "ss://YWVzLTI1Ni1nY206cGFzc3dvcmQ=@1.2.3.4:8388#Test" =
      some (.map [("name", .s "Test"), ("type", .s "ss"), ("server", .s "1.2.3.4"),
        ("port", .i 8388), ("cipher", .s "aes-256-gcm"), ("password", .s "password")]) ∧
    ss_to_clash "ss://YWVzLTI1Ni1nY206cGFzc3dvcmQ@1.2.3.4:8388#Test" =
      some (.map [("name", .s "Test"), ("type", .s "ss"), ("server", .s "1.2.3.4"),
        ("port", .i 8388), ("cipher", .s "aes-256-gcm"), ("password", .s "password")]) ∧
    ss_to_clash "ss://YWVzLTI1Ni1nY206cGFzc3dvcmRAMS4yLjMuNDo4Mzg4#Test" =
      some (.map [("name", .s "Test"), ("type", .s "ss"), ("server", .s "1.2.3.4"),
        ("port", .i 8388), ("cipher", .s "aes-256-gcm"), ("password", .s "password")]) :=
  ⟨rfl, rfl, rfl⟩

/-! ### Shared dict/count lemmas for the merge claims -/

theorem lookupKV_setKV_self (k : String) (v : PyV) (l : List (String × PyV)) :
    lookupKV k (setKV k v l) = some v := by
  induction l with
  | nil => simp [setKV, lookupKV]
  | cons kv rest ih =>
    obtain ⟨k2, w⟩ := kv
    by_cases h : k2 = k
    · subst h; simp [setKV, lookupKV]
    · simp [setKV, lookupKV, h, ih]

theorem lookupKV_setKV_ne (k k2 : String) (v : PyV) (l : List (String × PyV))
    (h : k ≠ k2) : lookupKV k (setKV k2 v l) = lookupKV k l := by
  induction l with
  | nil => simp [setKV, lookupKV, Ne.symm h]
  | cons kv rest ih =>
    obtain ⟨k3, w⟩ := kv
    by_cases h2 : k3 = k2
    · subst h2; simp [setKV, lookupKV, Ne.symm h, h]
    · simp only [setKV, if_neg h2]
      by_cases h3 : k3 = k
      · subst h3; simp [lookupKV]
      · simp [lookupKV, h3, ih]

theorem pyEqB_s_iff (x : PyV) (n : String) : pyEqB x (.s n) = true ↔ x = .s n := by
  cases x <;> simp [pyEqB]

theorem countNameS_append (n : String) (l1 l2 : List PyV) :
    countNameS n (l1 ++ l2) = countNameS n l1 + countNameS n l2 := by
  simp [countNameS, List.filter_append]

/-! ### Claim C4 -/

theorem mergeStage2_nonlist (doc2 : List (String × PyV)) (ps : List PyV) (st man : Bool)
    (v : PyV) (hg : lookupKV "proxy-groups" doc2 = some v) (hl : isPyList v = false)
    (hstman : (st || man) = true) :
    mergeStage2 doc2 ps st man = .error (.typeErr "proxy-groups" (pyTypeName v)) := by
  unfold mergeStage2
  rw [hstman, if_pos rfl, hg]
  cases v <;> first | rfl | simp [isPyList] at hl

/-- C4: with either flag set and a present non-list `proxy-groups` value, the
merge raises (first conjunct: it always errors, so nothing is written; second
conjunct: when the earlier `proxies` stage passes, the error is exactly the
`TypeError` naming `proxy-groups` and the value's actual type name). -/
theorem c4_group_type_error (doc : List (String × PyV)) (ps : List PyV) (st man : Bool)
    (v : PyV) (hv : lookupKV "proxy-groups" doc = some v) (hl : isPyList v = false)
    (hf : st = true ∨ man = true) :
    (∃ e, update_yaml doc ps st man = .error e) ∧
    (proxiesSectionOk doc = true →
      update_yaml doc ps st man = .error (.typeErr "proxy-groups" (pyTypeName v))) := by
  have hstman : (st || man) = true := by rcases hf with h | h <;> simp [h]
  have hpg : ∀ nv, lookupKV "proxy-groups" (setKV "proxies" nv doc) = some v := by
    intro nv
    rw [lookupKV_setKV_ne _ _ _ _ (by decide)]
    exact hv
  have key : proxiesSectionOk doc = true →
      update_yaml doc ps st man = .error (.typeErr "proxy-groups" (pyTypeName v)) := by
    intro hok
    unfold proxiesSectionOk at hok
    unfold update_yaml
    cases hpx : lookupKV "proxies" doc with
    | none => exact mergeStage2_nonlist _ _ _ _ _ (hpg _) hl hstman
    | some w =>
      cases w with
      | null => exact mergeStage2_nonlist _ _ _ _ _ (hpg _) hl hstman
      | seq xs => exact mergeStage2_nonlist _ _ _ _ _ (hpg _) hl hstman
      | s a => rw [hpx] at hok; simp at hok
      | i a => rw [hpx] at hok; simp at hok
      | b a => rw [hpx] at hok; simp at hok
      | map a => rw [hpx] at hok; simp at hok
  refine ⟨?_, key⟩
  by_cases hok : proxiesSectionOk doc = true
  · exact ⟨_, key hok⟩
  · unfold proxiesSectionOk at hok
    unfold update_yaml
    cases hpx : lookupKV "proxies" doc with
    | none => rw [hpx] at hok; simp at hok
    | some w =>
      cases w with
      | null => rw [hpx] at hok; simp at hok
      | seq xs => rw [hpx] at hok; simp at hok
      | s a => exact ⟨_, rfl⟩
      | i a => exact ⟨_, rfl⟩
      | b a => exact ⟨_, rfl⟩
      | map a => exact ⟨_, rfl⟩

/-- The document used by the C4 witness: `proxy-groups` is a string. -/
def c4doc : List (String × PyV) := [("proxy-groups", .s "oops")]

/-- C4 witness: the theorem at a concrete string-valued `proxy-groups`. -/
theorem c4_group_type_error_witness :
    update_yaml c4doc [] true false = .error (.typeErr "proxy-groups" "str") :=
  (c4_group_type_error c4doc [] true false (.s "oops") rfl rfl (Or.inl rfl)).2 rfl

/-! ### Claim C5 -/

theorem appendMissing_count_le (n : String) (ns : List PyV) (cur : List PyV)
    (h : countNameS n cur ≤ 1) : countNameS n (appendMissing cur ns) ≤ 1 := by
  induction ns generalizing cur with
  | nil => simpa [appendMissing] using h
  | cons m ms ih =>
    unfold appendMissing
    by_cases hm : cur.any (fun x => pyEqB x m) = true
    · rw [if_pos hm]; exact ih cur h
    · rw [if_neg hm]
      apply ih
      rw [countNameS_append]
      by_cases hmn : m = PyV.s n
      · subst hmn
        have hz : countNameS n cur = 0 := by
          have hno : ∀ x ∈ cur, ¬ (pyEqB x (PyV.s n) = true) := by
            intro x hx hcon
            exact hm (List.any_eq_true.mpr ⟨x, hx, hcon⟩)
          simp only [countNameS]
          rw [List.filter_eq_nil_iff.mpr (by simpa using hno)]
          rfl
        have hone : countNameS n [PyV.s n] = 1 := by simp [countNameS, pyEqB]
        omega
      · have hz : countNameS n [m] = 0 := by
          have hf : pyEqB m (PyV.s n) = false := by
            rw [Bool.eq_false_iff]
            intro hcon
            exact hmn ((pyEqB_s_iff m n).mp hcon)
          simp [countNameS, List.filter, hf]
        omega

theorem mergeGroup_count_le (ps : List PyV) (st man : Bool) (g g2 : PyV) (n : String)
    (h : mergeGroup ps st man g = .ok g2)
    (hc : countNameS n (groupProxyList g) ≤ 1) :
    countNameS n (groupProxyList g2) ≤ 1 := by
  unfold mergeGroup at h
  cases g with
  | map kvs =>
    simp only [] at h
    cases hpx : lookupKV "proxies" kvs with
    | some w =>
      cases w with
      | seq gp =>
        rw [hpx] at h
        simp only [] at h
        have helig : ∀ hh : Except.map
            (fun ns => PyV.map (setKV "proxies" (PyV.seq (appendMissing gp ns)) kvs))
            (proxyNames ps) = .ok g2, countNameS n (groupProxyList g2) ≤ 1 := by
          intro hh
          cases hpn : proxyNames ps with
          | error e => rw [hpn] at hh; exact Except.noConfusion hh
          | ok ns =>
            rw [hpn] at hh
            injection hh with h2
            subst h2
            simp only [groupProxyList, lookupKV_setKV_self]
            exact appendMissing_count_le n ns gp (by simpa [groupProxyList, hpx] using hc)
        by_cases h1 : (st && speedTypes.contains (groupTypeStr kvs)) = true
        · rw [if_pos h1] at h; exact helig h
        · rw [if_neg h1] at h
          by_cases h2 : (man && groupTypeStr kvs == "select") = true
          · rw [if_pos h2] at h; exact helig h
          · rw [if_neg h2] at h; injection h with h3; subst h3; exact hc
      | s a => rw [hpx] at h; simp only [] at h; injection h with h3; subst h3; exact hc
      | i a => rw [hpx] at h; simp only [] at h; injection h with h3; subst h3; exact hc
      | b a => rw [hpx] at h; simp only [] at h; injection h with h3; subst h3; exact hc
      | null => rw [hpx] at h; simp only [] at h; injection h with h3; subst h3; exact hc
      | map a => rw [hpx] at h; simp only [] at h; injection h with h3; subst h3; exact hc
    | none => rw [hpx] at h; simp only [] at h; injection h with h3; subst h3; exact hc
  | s a => simp only [] at h; injection h with h3; subst h3; exact hc
  | i a => simp only [] at h; injection h with h3; subst h3; exact hc
  | b a => simp only [] at h; injection h with h3; subst h3; exact hc
  | null => simp only [] at h; injection h with h3; subst h3; exact hc
  | seq a => simp only [] at h; injection h with h3; subst h3; exact hc

theorem mergeGroups_count_le (ps : List PyV) (st man : Bool) (gs gs2 : List PyV) (n : String)
    (h : mergeGroups ps st man gs = .ok gs2)
    (hc : ∀ g ∈ gs, countNameS n (groupProxyList g) ≤ 1) :
    ∀ g2 ∈ gs2, countNameS n (groupProxyList g2) ≤ 1 := by
  induction gs generalizing gs2 with
  | nil =>
    unfold mergeGroups at h
    injection h with h2
    subst h2
    intro g2 hg2
    exact absurd hg2 (List.not_mem_nil g2)
  | cons g gs ih =>
    unfold mergeGroups at h
    cases hmg : mergeGroup ps st man g with
    | error e => rw [hmg] at h; exact Except.noConfusion h
    | ok g2 =>
      rw [hmg] at h
      cases hms : mergeGroups ps st man gs with
      | error e => rw [hms] at h; exact Except.noConfusion h
      | ok rest2 =>
        rw [hms] at h
        injection h with h2
        subst h2
        intro x hx
        rcases List.mem_cons.mp hx with rfl | hx2
        · exact mergeGroup_count_le ps st man g x n hmg (hc g (List.mem_cons_self g gs))
        · exact ih rest2 hms (fun g3 hg3 => hc g3 (List.mem_cons_of_mem g hg3)) x hx2

theorem docGroups_setKV_proxies (nv : PyV) (doc : List (String × PyV)) :
    docGroups (setKV "proxies" nv doc) = docGroups doc := by
  unfold docGroups
  rw [lookupKV_setKV_ne _ _ _ _ (by decide)]

theorem mergeStage2_count_le (doc2 : List (String × PyV)) (ps : List PyV) (st man : Bool)
    (out : List (String × PyV)) (n : String) (h : mergeStage2 doc2 ps st man = .ok out)
    (hc : ∀ g ∈ docGroups doc2, countNameS n (groupProxyList g) ≤ 1) :
    ∀ g ∈ docGroups out, countNameS n (groupProxyList g) ≤ 1 := by
  unfold mergeStage2 at h
  by_cases hf : (st || man) = true
  · rw [if_pos hf] at h
    cases hpg : lookupKV "proxy-groups" doc2 with
    | none => rw [hpg] at h; simp only [] at h; injection h with h2; subst h2; exact hc
    | some w =>
      cases w with
      | seq gs =>
        rw [hpg] at h
        simp only [] at h
        cases hms : mergeGroups ps st man gs with
        | error e => rw [hms] at h; exact Except.noConfusion h
        | ok gs2 =>
          rw [hms] at h
          injection h with h2
          subst h2
          have hdg : docGroups (setKV "proxy-groups" (PyV.seq gs2) doc2) = gs2 := by
            unfold docGroups
            rw [lookupKV_setKV_self]
          rw [hdg]
          exact mergeGroups_count_le ps st man gs gs2 n hms
            (by simpa [docGroups, hpg] using hc)
      | s a => rw [hpg] at h; exact Except.noConfusion h
      | i a => rw [hpg] at h; exact Except.noConfusion h
      | b a => rw [hpg] at h; exact Except.noConfusion h
      | null => rw [hpg] at h; exact Except.noConfusion h
      | map a => rw [hpg] at h; exact Except.noConfusion h
  · rw [if_neg hf] at h
    injection h with h2
    subst h2
    exact hc

theorem update_yaml_count_le (doc : List (String × PyV)) (ps : List PyV) (st man : Bool)
    (out : List (String × PyV)) (n : String) (h : update_yaml doc ps st man = .ok out)
    (hc : ∀ g ∈ docGroups doc, countNameS n (groupProxyList g) ≤ 1) :
    ∀ g ∈ docGroups out, countNameS n (groupProxyList g) ≤ 1 := by
  unfold update_yaml at h
  cases hpx : lookupKV "proxies" doc with
  | none =>
    rw [hpx] at h
    exact mergeStage2_count_le _ _ _ _ _ _ h (by rw [docGroups_setKV_proxies]; exact hc)
  | some w =>
    cases w with
    | null =>
      rw [hpx] at h
      exact mergeStage2_count_le _ _ _ _ _ _ h (by rw [docGroups_setKV_proxies]; exact hc)
    | seq xs =>
      rw [hpx] at h
      exact mergeStage2_count_le _ _ _ _ _ _ h (by rw [docGroups_setKV_proxies]; exact hc)
    | s a => rw [hpx] at h; exact Except.noConfusion h
    | i a => rw [hpx] at h; exact Except.noConfusion h
    | b a => rw [hpx] at h; exact Except.noConfusion h
    | map a => rw [hpx] at h; exact Except.noConfusion h

/-- The document refuting C5 as stated: the `select` group already holds the
name `A` twice before any merge runs. -/
def c5dupDoc : List (String × PyV) :=
  [("proxy-groups", .seq [.map [("name", .s "G"), ("type", .s "select"),
    ("proxies", .seq [.s "A", .s "A"])]])]

/-- The merged output for `c5dupDoc` after one manual-flag merge call. -/
def c5dupOut : List (String × PyV) :=
  [("proxy-groups", .seq [.map [("name", .s "G"), ("type", .s "select"),
    ("proxies", .seq [.s "A", .s "A"])]]),
   ("proxies", .seq [])]

/-- C5 counterexample: after a sequence of merge calls with the manual flag
set, the name `A` still appears twice in the group (merging never removes a
pre-existing duplicate), so "appears at most once" does not hold as
stated. -/
theorem c5_counterexample :
    runMerges c5dupDoc [([], false, true)] = .ok c5dupOut ∧
    (docGroups c5dupOut).map (fun g => countNameS "A" (groupProxyList g)) = [2] :=
  ⟨rfl, rfl⟩

/-- C5 (amended): the merge never introduces a duplicate: if a proxy name
appears at most once in every group of the starting document, then after any
sequence of merge calls it still appears at most once in every group — in
particular merging a fresh name twice leaves exactly one occurrence.  (A name
already duplicated in the input document stays duplicated.) -/
theorem c5_merge_duplicate_safe (doc : List (String × PyV))
    (calls : List (List PyV × Bool × Bool)) (out : List (String × PyV)) (n : String)
    (h : runMerges doc calls = .ok out)
    (hc : ∀ g ∈ docGroups doc, countNameS n (groupProxyList g) ≤ 1) :
    ∀ g ∈ docGroups out, countNameS n (groupProxyList g) ≤ 1 := by
  induction calls generalizing doc with
  | nil =>
    unfold runMerges at h
    injection h with h2
    subst h2
    exact hc
  | cons call calls ih =>
    obtain ⟨ps, st, man⟩ := call
    unfold runMerges at h
    cases hu : update_yaml doc ps st man with
    | error e => rw [hu] at h; exact Except.noConfusion h
    | ok doc2 =>
      rw [hu] at h
      exact ih doc2 h (update_yaml_count_le doc ps st man doc2 n hu hc)

/-- Starting document for the C5 witness (one `select` group, no
duplicates). -/
def c5doc : List (String × PyV) :=
  [("proxy-groups", .seq [.map [("name", .s "G"), ("type", .s "select"),
    ("proxies", .seq [.s "DIRECT"])]])]

/-- Two manual-flag merge calls adding the same proxy name `A` twice. -/
def c5calls : List (List PyV × Bool × Bool) :=
  [([.map [("name", .s "A")]], false, true), ([.map [("name", .s "A")]], false, true)]

/-- The merged output for `c5doc` after `c5calls`: `A` appears exactly
once. -/
def c5out : List (String × PyV) :=
  [("proxy-groups", .seq [.map [("name", .s "G"), ("type", .s "select"),
    ("proxies", .seq [.s "DIRECT", .s "A"])]]),
   ("proxies", .seq [.map [("name", .s "A")], .map [("name", .s "A")]])]

/-- C5 witness: the amended theorem at the concrete double merge. -/
theorem c5_merge_duplicate_safe_witness :
    countNameS "A" (groupProxyList (PyV.map [("name", PyV.s "G"), ("type", PyV.s "select"),
      ("proxies", PyV.seq [PyV.s "DIRECT", PyV.s "A"])])) ≤ 1 :=
  c5_merge_duplicate_safe c5doc c5calls c5out "A" rfl
    (by
      intro g hg
      have hgl : g = PyV.map [("name", PyV.s "G"), ("type", PyV.s "select"),
          ("proxies", PyV.seq [PyV.s "DIRECT"])] := by
        simpa [c5doc, docGroups, lookupKV] using hg
      subst hgl
      decide)
    (PyV.map [("name", PyV.s "G"), ("type", PyV.s "select"),
      ("proxies", PyV.seq [PyV.s "DIRECT", PyV.s "A"])])
    (by simp [c5out, docGroups, lookupKV])

/-! ### Claim C6 -/

/-- Keeps exactly the top-level bindings whose key is neither `proxies` nor
`proxy-groups`. -/
def framePred (kv : String × PyV) : Bool := !(kv.1 == "proxies" || kv.1 == "proxy-groups")

theorem filter_framePred_setKV (k : String) (v : PyV) (l : List (String × PyV))
    (hk : framePred (k, v) = false) :
    (setKV k v l).filter framePred = l.filter framePred := by
  induction l with
  | nil => simp [setKV, List.filter, hk]
  | cons kv2 rest ih =>
    obtain ⟨k2, w⟩ := kv2
    by_cases h2 : k2 = k
    · subst h2
      have hw : framePred (k2, w) = false := by
        simp_all [framePred]
      simp [setKV, List.filter, hk, hw]
    · simp only [setKV, if_neg h2, List.filter_cons]
      rw [ih]

theorem mergeStage2_ok_shape (doc2 : List (String × PyV)) (ps : List PyV) (st man : Bool)
    (out : List (String × PyV)) (h : mergeStage2 doc2 ps st man = .ok out) :
    out = doc2 ∨ ∃ gs2, out = setKV "proxy-groups" (.seq gs2) doc2 := by
  unfold mergeStage2 at h
  split at h
  · repeat' split at h
    all_goals try exact Except.noConfusion h
    all_goals injection h with h2
    · exact Or.inl h2.symm
    · exact Or.inr ⟨_, h2.symm⟩
  · injection h with h2
    exact Or.inl h2.symm

theorem update_yaml_ok_shape (doc : List (String × PyV)) (ps : List PyV) (st man : Bool)
    (out : List (String × PyV)) (h : update_yaml doc ps st man = .ok out) :
    ∃ nv doc2, doc2 = setKV "proxies" nv doc ∧
      (out = doc2 ∨ ∃ gs2, out = setKV "proxy-groups" (.seq gs2) doc2) := by
  unfold update_yaml at h
  repeat' split at h
  all_goals try exact Except.noConfusion h
  all_goals exact ⟨_, _, rfl, mergeStage2_ok_shape _ _ _ _ _ h⟩

/-- C6: a successful merge touches only the `proxies` and `proxy-groups`
bindings: the other top-level bindings survive with their order, multiplicity
and values intact (filter equality), and every other key looks up to the same
value as before. -/
theorem c6_merge_frame (doc : List (String × PyV)) (ps : List PyV) (st man : Bool)
    (out : List (String × PyV)) (h : update_yaml doc ps st man = .ok out) :
    out.filter framePred = doc.filter framePred ∧
    ∀ k, k ≠ "proxies" → k ≠ "proxy-groups" → lookupKV k out = lookupKV k doc := by
  obtain ⟨nv, doc2, hd2, hout⟩ := update_yaml_ok_shape doc ps st man out h
  have base : doc2.filter framePred = doc.filter framePred ∧
      ∀ k, k ≠ "proxies" → k ≠ "proxy-groups" → lookupKV k doc2 = lookupKV k doc := by
    subst hd2
    exact ⟨filter_framePred_setKV _ _ _ (by simp [framePred]),
      fun k h1 h2 => lookupKV_setKV_ne _ _ _ _ h1⟩
  rcases hout with rfl | ⟨gs2, rfl⟩
  · exact base
  · refine ⟨?_, fun k h1 h2 => ?_⟩
    · rw [filter_framePred_setKV _ _ _ (by simp [framePred])]
      exact base.1
    · rw [lookupKV_setKV_ne _ _ _ _ h2]
      exact base.2 k h1 h2

/-- Document with unrelated keys for the C6 witness. -/
def c6doc : List (String × PyV) := [("dns", .s "x"), ("rules", .seq [.s "MATCH"])]

/-- The merged output for `c6doc`: only a `proxies` binding is added. -/
def c6out : List (String × PyV) :=
  [("dns", .s "x"), ("rules", .seq [.s "MATCH"]), ("proxies", .seq [])]

/-- C6 witness: the frame theorem at a concrete document. -/
theorem c6_merge_frame_witness :
    c6out.filter framePred = c6doc.filter framePred :=
  (c6_merge_frame c6doc [] false false c6out rfl).1

theorem char_toNat_valid (c : Char) :
    c.toNat < 0xD800 ∨ (0xDFFF < c.toNat ∧ c.toNat < 0x110000) := by
  have hv := c.valid
  rcases hv with h | ⟨h1, h2⟩
  · exact Or.inl h
  · exact Or.inr ⟨by simpa using h1, by simpa using h2⟩

theorem utf8EncodeChar_shape (c : Char) (rest : List Nat) :
    ∃ b bs, utf8EncodeChar c = b :: bs ∧ utf8Step b (bs ++ rest) = (c, rest) ∧
      (b :: bs).length ≤ 4 := by
  have hv := char_toNat_valid c
  have hofn : Char.ofNat c.toNat = c := Char.ofNat_toNat c
  unfold utf8EncodeChar
  rcases Nat.lt_or_ge c.toNat 0x80 with h1 | h1
  · refine ⟨_, _, by rw [if_pos h1], ?_, by simp⟩
    unfold utf8Step
    simp only [List.nil_append]
    rw [if_pos h1, hofn]
  · rw [if_neg (by omega)]
    rcases Nat.lt_or_ge c.toNat 0x800 with h2 | h2
    · refine ⟨_, _, by rw [if_pos h2], ?_, by simp⟩
      unfold utf8Step
      simp only [List.cons_append, List.nil_append]
      rw [if_neg (by omega), if_neg (by omega), if_pos (by omega)]
      have hcont : contB (0x80 + c.toNat % 64) = true := by
        unfold contB
        simp only [Bool.and_eq_true, decide_eq_true_eq]
        omega
      rw [hcont]
      simp only [if_true]
      rw [show (0xC0 + c.toNat / 64 - 0xC0) * 64 + (0x80 + c.toNat % 64 - 0x80) = c.toNat by
        omega, hofn]
    · rw [if_neg (by omega)]
      rcases Nat.lt_or_ge c.toNat 0x10000 with h3 | h3
      · refine ⟨_, _, by rw [if_pos h3], ?_, by simp⟩
        unfold utf8Step
        simp only [List.cons_append, List.nil_append]
        rw [if_neg (by omega), if_neg (by omega), if_neg (by omega), if_pos (by omega)]
        have hc1 : contB (0x80 + c.toNat / 64 % 64) = true := by
          unfold contB
          simp only [Bool.and_eq_true, decide_eq_true_eq]
          omega
        have hc2 : contB (0x80 + c.toNat % 64) = true := by
          unfold contB
          simp only [Bool.and_eq_true, decide_eq_true_eq]
          omega
        rw [hc1, hc2]
        simp only [Bool.and_self, if_true]
        rw [show (0xE0 + c.toNat / 4096 - 0xE0) * 4096 +
            (0x80 + c.toNat / 64 % 64 - 0x80) * 64 + (0x80 + c.toNat % 64 - 0x80) = c.toNat by
          omega]
        have hcheck : (0x800 ≤ c.toNat && !(0xD800 ≤ c.toNat && c.toNat ≤ 0xDFFF)) = true := by
          simp only [Bool.and_eq_true, Bool.not_eq_true', Bool.and_eq_false_iff,
            decide_eq_true_eq, decide_eq_false_iff_not]
          refine ⟨by omega, ?_⟩
          rcases hv with h | ⟨h, _⟩
          · left; omega
          · right; omega
        rw [hcheck]
        simp only [if_true]
        rw [hofn]
      · rw [if_neg (by omega)]
        have h4 : c.toNat < 0x110000 := by
          rcases hv with h | ⟨_, h⟩
          · omega
          · exact h
        refine ⟨_, _, rfl, ?_, by simp⟩
        unfold utf8Step
        simp only [List.cons_append, List.nil_append]
        rw [if_neg (by omega), if_neg (by omega), if_neg (by omega), if_neg (by omega),
          if_pos (by omega)]
        have hc1 : contB (0x80 + c.toNat / 4096 % 64) = true := by
          unfold contB
          simp only [Bool.and_eq_true, decide_eq_true_eq]
          omega
        have hc2 : contB (0x80 + c.toNat / 64 % 64) = true := by
          unfold contB
          simp only [Bool.and_eq_true, decide_eq_true_eq]
          omega
        have hc3 : contB (0x80 + c.toNat % 64) = true := by
          unfold contB
          simp only [Bool.and_eq_true, decide_eq_true_eq]
          omega
        rw [hc1, hc2, hc3]
        simp only [Bool.and_self, if_true]
        rw [show (0xF0 + c.toNat / 262144 - 0xF0) * 262144 +
            (0x80 + c.toNat / 4096 % 64 - 0x80) * 4096 +
            (0x80 + c.toNat / 64 % 64 - 0x80) * 64 + (0x80 + c.toNat % 64 - 0x80) = c.toNat by
          omega]
        have hcheck : (0x10000 ≤ c.toNat && c.toNat < 0x110000) = true := by
          simp only [Bool.and_eq_true, decide_eq_true_eq]
          exact ⟨by omega, h4⟩
        rw [hcheck]
        simp only [if_true]
        rw [hofn]

theorem utf8DecGo_encode (cs : List Char) (fuel : Nat)
    (h : (utf8EncodeL cs).length ≤ fuel) : utf8DecGo fuel (utf8EncodeL cs) = cs := by
  induction cs generalizing fuel with
  | nil =>
    cases fuel <;> rfl
  | cons c cs ih =>
    obtain ⟨b, bs, henc, hstep, hlen⟩ := utf8EncodeChar_shape c (utf8EncodeL cs)
    have henc2 : utf8EncodeL (c :: cs) = b :: (bs ++ utf8EncodeL cs) := by
      have heq : utf8EncodeL (c :: cs) = utf8EncodeChar c ++ utf8EncodeL cs := rfl
      rw [heq, henc]
      simp
    rw [henc2] at h ⊢
    cases fuel with
    | zero => simp at h
    | succ f =>
      unfold utf8DecGo
      rw [hstep]
      simp only []
      congr 1
      apply ih
      simp at h
      omega

theorem utf8_roundtrip (cs : List Char) :
    utf8DecodeReplace (utf8EncodeL cs) = cs := by
  unfold utf8DecodeReplace
  exact utf8DecGo_encode cs _ (le_refl _)

theorem b64Val_b64Chr (v : Nat) (h : v < 64) : b64Val (b64Chr v) = some v := by
  have hall : ∀ w : Fin 64, b64Val (b64Chr w.val) = some w.val := by decide
  exact hall ⟨v, h⟩

theorem b64Chr_ne_pad (v : Nat) (h : v < 64) : (b64Chr v == '=') = false := by
  have hall : ∀ w : Fin 64, (b64Chr w.val == '=') = false := by decide
  exact hall ⟨v, h⟩

theorem a2b_step0 (v : Nat) (hv : v < 64) (rest : List Char) :
    a2b (b64Chr v :: rest) 0 0 = a2b rest 1 v := by
  conv_lhs => unfold a2b
  rw [b64Chr_ne_pad v hv, b64Val_b64Chr v hv]
  exact rfl

theorem a2b_step1 (v : Nat) (hv : v < 64) (lc : Nat) (rest : List Char) :
    a2b (b64Chr v :: rest) 1 lc =
      (a2b rest 2 ((lc * 64 + v) % 16)).map (fun bs => (lc * 64 + v) / 16 :: bs) := by
  conv_lhs => unfold a2b
  rw [b64Chr_ne_pad v hv, b64Val_b64Chr v hv]
  exact rfl

theorem a2b_step2 (v : Nat) (hv : v < 64) (lc : Nat) (rest : List Char) :
    a2b (b64Chr v :: rest) 2 lc =
      (a2b rest 3 ((lc * 64 + v) % 4)).map (fun bs => (lc * 64 + v) / 4 :: bs) := by
  conv_lhs => unfold a2b
  rw [b64Chr_ne_pad v hv, b64Val_b64Chr v hv]
  exact rfl

theorem a2b_step3 (v : Nat) (hv : v < 64) (lc : Nat) (rest : List Char) :
    a2b (b64Chr v :: rest) 3 lc = (a2b rest 0 0).map (fun bs => (lc * 64 + v) :: bs) := by
  conv_lhs => unfold a2b
  rw [b64Chr_ne_pad v hv, b64Val_b64Chr v hv]
  exact rfl

theorem a2b_pad3 (rest : List Char) (lc : Nat) : a2b ('=' :: rest) 3 lc = some [] := by
  conv_lhs => unfold a2b
  exact rfl

theorem a2b_pad2 (rest : List Char) (lc : Nat) (h : nextValidIsPad rest = true) :
    a2b ('=' :: rest) 2 lc = some [] := by
  conv_lhs => unfold a2b
  rw [h]
  exact rfl

theorem a2b_encode (bs : List Nat) (h : ∀ b ∈ bs, b < 256) :
    a2b (b64encodeBytes bs) 0 0 = some bs := by
  induction bs using b64encodeBytes.induct with
  | case1 => rfl
  | case2 b0 =>
    have hb0 : b0 < 256 := h b0 (by simp)
    unfold b64encodeBytes
    rw [a2b_step0 _ (by omega), a2b_step1 _ (by omega)]
    rw [show b0 / 4 * 64 + b0 % 4 * 16 = 16 * b0 by omega]
    rw [a2b_pad2 _ _ (by rfl)]
    simp only [Option.map_some']
    rw [show 16 * b0 / 16 = b0 by omega]
  | case3 b0 b1 =>
    have hb0 : b0 < 256 := h b0 (by simp)
    have hb1 : b1 < 256 := h b1 (by simp)
    unfold b64encodeBytes
    rw [a2b_step0 _ (by omega), a2b_step1 _ (by omega), a2b_step2 _ (by omega)]
    rw [a2b_pad3]
    simp only [Option.map_some']
    rw [show b0 / 4 * 64 + (b0 % 4 * 16 + b1 / 16) = 16 * b0 + b1 / 16 by omega]
    rw [show (16 * b0 + b1 / 16) % 16 * 64 + b1 % 16 * 4 = (b1 / 16 % 16) * 64 + b1 % 16 * 4
      from by omega]
    rw [show (16 * b0 + b1 / 16) / 16 = b0 by omega]
    rw [show b1 / 16 % 16 * 64 + b1 % 16 * 4 = 4 * b1 by omega]
    rw [show 4 * b1 / 4 = b1 by omega]
  | case4 b0 b1 b2 rest ih =>
    have hb0 : b0 < 256 := h b0 (by simp)
    have hb1 : b1 < 256 := h b1 (by simp)
    have hb2 : b2 < 256 := h b2 (by simp)
    have ih2 := ih (fun b hb => h b (by simp [hb]))
    unfold b64encodeBytes
    rw [a2b_step0 _ (by omega), a2b_step1 _ (by omega), a2b_step2 _ (by omega),
      a2b_step3 _ (by omega)]
    rw [ih2]
    simp only [Option.map_some']
    rw [show b0 / 4 * 64 + (b0 % 4 * 16 + b1 / 16) = 16 * b0 + b1 / 16 by omega]
    rw [show (16 * b0 + b1 / 16) / 16 = b0 by omega]
    rw [show (16 * b0 + b1 / 16) % 16 * 64 + (b1 % 16 * 4 + b2 / 64) =
      4 * b1 + b2 / 64 by omega]
    rw [show (4 * b1 + b2 / 64) / 4 = b1 by omega]
    rw [show (4 * b1 + b2 / 64) % 4 * 64 + b2 % 64 = b2 by omega]

theorem not_cr_of_not_lb (c : Char) (h : isLineBreak c = false) :
    (c == Char.ofNat 0x0D) = false := by
  rw [beq_eq_false_iff_ne]
  intro hcon
  subst hcon
  exact Bool.noConfusion h

theorem splitlinesGo_nb_cons (line : List Char) (h : ∀ c ∈ line, isLineBreak c = false)
    (rest : List Char) (acc : List Char) :
    splitlinesGo (line ++ '\n' :: rest) acc = (acc ++ line) :: splitlinesGo rest [] := by
  induction line generalizing acc with
  | nil =>
    simp only [List.nil_append, List.append_nil]
    cases rest with
    | nil => exact rfl
    | cons r rs => exact rfl
  | cons c line2 ih =>
    have hc := h c (by simp)
    have hrest : ∀ x ∈ line2, isLineBreak x = false := fun x hx => h x (by simp [hx])
    have hstep : splitlinesGo ((c :: line2) ++ '\n' :: rest) acc =
        splitlinesGo (line2 ++ '\n' :: rest) (acc ++ [c]) := by
      cases hsplit : line2 ++ '\n' :: rest with
      | nil => exact absurd hsplit (by simp)
      | cons d ds =>
        rw [List.cons_append, hsplit]
        conv_lhs => unfold splitlinesGo
        rw [not_cr_of_not_lb c hc]
        rw [hc]
        exact rfl
    rw [hstep, ih hrest]
    simp

theorem splitlinesGo_nb_nil (line : List Char) (h : ∀ c ∈ line, isLineBreak c = false)
    (acc : List Char) (hne : acc ++ line ≠ []) :
    splitlinesGo line acc = [acc ++ line] := by
  induction line generalizing acc with
  | nil =>
    simp only [List.append_nil] at hne ⊢
    unfold splitlinesGo
    rw [if_neg (by simpa using hne)]
  | cons c line2 ih =>
    have hc := h c (by simp)
    have hrest : ∀ x ∈ line2, isLineBreak x = false := fun x hx => h x (by simp [hx])
    cases line2 with
    | nil =>
      unfold splitlinesGo
      rw [hc]
      simp
    | cons d ds =>
      have hstep : splitlinesGo (c :: d :: ds) acc = splitlinesGo (d :: ds) (acc ++ [c]) := by
        conv_lhs => unfold splitlinesGo
        rw [not_cr_of_not_lb c hc]
        rw [hc]
        exact rfl
      rw [hstep, ih hrest (acc ++ [c]) (by simp)]
      simp

theorem pySplitlines_joinSep (ls : List (List Char))
    (hnb : ∀ l ∈ ls, ∀ c ∈ l, isLineBreak c = false)
    (hne : ∀ l ∈ ls, l ≠ []) :
    pySplitlines (joinSep ['\n'] ls) = ls := by
  induction ls with
  | nil => rfl
  | cons l ls ih =>
    cases ls with
    | nil =>
      show splitlinesGo l [] = [l]
      have := splitlinesGo_nb_nil l (hnb l (by simp)) []
        (by simpa using hne l (by simp))
      simpa using this
    | cons l2 ls2 =>
      unfold pySplitlines
      have hj : joinSep ['\n'] (l :: l2 :: ls2) =
          l ++ ['\n'] ++ joinSep ['\n'] (l2 :: ls2) := rfl
      rw [hj, List.append_assoc]
      simp only [List.singleton_append]
      rw [splitlinesGo_nb_cons l (hnb l (by simp))]
      simp only [List.nil_append]
      have ih2 := ih (fun x hx => hnb x (by simp [hx])) (fun x hx => hne x (by simp [hx]))
      exact congrArg (l :: ·) ih2

theorem trimmed_lines_id (ls : List (List Char))
    (hfix : ∀ l ∈ ls, pyStrip l = l) (hne : ∀ l ∈ ls, l ≠ []) :
    ((ls.map pyStrip).filter (fun l => !l.isEmpty)) = ls := by
  induction ls with
  | nil => rfl
  | cons l ls ih =>
    simp only [List.map_cons, List.filter_cons]
    rw [hfix l (by simp)]
    have : (!l.isEmpty) = true := by
      simpa using hne l (by simp)
    rw [this]
    simp only [if_true]
    rw [ih (fun x hx => hfix x (by simp [hx])) (fun x hx => hne x (by simp [hx]))]

theorem dropWhile_no (p : Char → Bool) (l : List Char) (h : ∀ c ∈ l, p c = false) :
    l.dropWhile p = l := by
  cases l with
  | nil => rfl
  | cons c t =>
    rw [List.dropWhile_cons, h c (by simp)]
    simp

theorem dropWhile_length_le (p : Char → Bool) (l : List Char) :
    (l.dropWhile p).length ≤ l.length := by
  induction l with
  | nil => simp
  | cons c t ih =>
    rw [List.dropWhile_cons]
    split
    · exact le_trans ih (by simp)
    · simp

theorem pyStrip_of_no_ws (l : List Char) (h : ∀ c ∈ l, isPyWs c = false) :
    pyStrip l = l := by
  unfold pyStrip dropWhileEnd
  rw [dropWhile_no _ _ h, dropWhile_no _ _ (fun c hc => h c (List.mem_reverse.mp hc)),
    List.reverse_reverse]

theorem pyStrip_eq_self_of_ends (l : List Char)
    (hh : ∀ (c : Char) (t : List Char), l = c :: t → isPyWs c = false)
    (hl : ∀ (c : Char) (t : List Char), l.reverse = c :: t → isPyWs c = false) :
    pyStrip l = l := by
  unfold pyStrip dropWhileEnd
  have h1 : l.dropWhile isPyWs = l := by
    cases l with
    | nil => rfl
    | cons c t =>
      rw [List.dropWhile_cons, hh c t rfl]
      simp
  rw [h1]
  have h2 : l.reverse.dropWhile isPyWs = l.reverse := by
    cases hr : l.reverse with
    | nil => rfl
    | cons c t =>
      rw [List.dropWhile_cons, hl c t hr]
      simp
  rw [h2, List.reverse_reverse]

theorem length_dropWhileEnd_le (p : Char → Bool) (l : List Char) :
    (dropWhileEnd p l).length ≤ l.length := by
  unfold dropWhileEnd
  calc (l.reverse.dropWhile p).reverse.length = (l.reverse.dropWhile p).length := by simp
  _ ≤ l.reverse.length := dropWhile_length_le p l.reverse
  _ = l.length := by simp

theorem strip_fix_dropWhile (l : List Char) (h : pyStrip l = l) :
    l.dropWhile isPyWs = l := by
  cases l with
  | nil => rfl
  | cons c t =>
    by_cases hc : isPyWs c = true
    · exfalso
      have h1 : (c :: t).dropWhile isPyWs = t.dropWhile isPyWs := by
        rw [List.dropWhile_cons, if_pos hc]
      have h2 : (pyStrip (c :: t)).length ≤ t.length := by
        unfold pyStrip
        rw [h1]
        calc (dropWhileEnd isPyWs (t.dropWhile isPyWs)).length
            ≤ (t.dropWhile isPyWs).length := length_dropWhileEnd_le _ _
        _ ≤ t.length := dropWhile_length_le isPyWs t
      rw [h] at h2
      simp at h2
    · rw [List.dropWhile_cons, if_neg hc]

theorem strip_fix_head (c : Char) (t : List Char) (h : pyStrip (c :: t) = c :: t) :
    isPyWs c = false := by
  have hd := strip_fix_dropWhile _ h
  by_cases hc : isPyWs c = true
  · exfalso
    rw [List.dropWhile_cons, if_pos hc] at hd
    have h2 := dropWhile_length_le isPyWs t
    have h3 := congrArg List.length hd
    simp at h3
    omega
  · simpa using hc

theorem strip_fix_last (l : List Char) (h : pyStrip l = l) (c : Char) (t : List Char)
    (hr : l.reverse = c :: t) : isPyWs c = false := by
  have hd := strip_fix_dropWhile _ h
  have hend : dropWhileEnd isPyWs l = l := by
    have : pyStrip l = dropWhileEnd isPyWs l := by
      unfold pyStrip
      rw [hd]
    rw [← this, h]
  have hrev : l.reverse.dropWhile isPyWs = l.reverse := by
    unfold dropWhileEnd at hend
    have := congrArg List.reverse hend
    simpa using this
  rw [hr] at hrev
  by_cases hc : isPyWs c = true
  · exfalso
    rw [List.dropWhile_cons, if_pos hc] at hrev
    have h1 := dropWhile_length_le isPyWs t
    have h2 := congrArg List.length hrev
    simp at h2
    omega
  · simpa using hc

theorem joinSep_ne_nil (sep : List Char) (l : List Char) (ls : List (List Char))
    (h : l ≠ []) : joinSep sep (l :: ls) ≠ [] := by
  cases ls with
  | nil => simpa [joinSep] using h
  | cons l2 ls2 =>
    show l ++ sep ++ joinSep sep (l2 :: ls2) ≠ []
    simp [h]

theorem join_reverse_head_not_ws (ls : List (List Char))
    (hfix : ∀ l ∈ ls, pyStrip l = l) (hne : ∀ l ∈ ls, l ≠ []) :
    ∀ c t, (joinSep ['\n'] ls).reverse = c :: t → isPyWs c = false := by
  induction ls with
  | nil => intro c t hct; exact absurd hct (by simp [joinSep])
  | cons l ls ih =>
    intro c t hct
    cases ls with
    | nil =>
      exact strip_fix_last l (hfix l (by simp)) c t hct
    | cons l2 ls2 =>
      have hJ : joinSep ['\n'] (l :: l2 :: ls2) = l ++ ['\n'] ++ joinSep ['\n'] (l2 :: ls2) :=
        rfl
      rw [hJ] at hct
      have hJne : joinSep ['\n'] (l2 :: ls2) ≠ [] :=
        joinSep_ne_nil _ _ _ (hne l2 (by simp))
      cases hrj : (joinSep ['\n'] (l2 :: ls2)).reverse with
      | nil => exact absurd (by simpa using congrArg List.reverse hrj) hJne
      | cons c0 t0 =>
        have : (l ++ ['\n'] ++ joinSep ['\n'] (l2 :: ls2)).reverse =
            c0 :: (t0 ++ ('\n' :: l.reverse)) := by
          rw [List.reverse_append, List.reverse_append, hrj]
          simp
        rw [this] at hct
        injection hct with hc ht
        subst hc
        exact ih (fun x hx => hfix x (by simp [hx])) (fun x hx => hne x (by simp [hx]))
          c0 t0 hrj

theorem join_strip_fix (ls : List (List Char))
    (hfix : ∀ l ∈ ls, pyStrip l = l) (hne : ∀ l ∈ ls, l ≠ []) :
    pyStrip (joinSep ['\n'] ls) = joinSep ['\n'] ls := by
  cases ls with
  | nil => rfl
  | cons l ls =>
    apply pyStrip_eq_self_of_ends
    · intro c t hct
      cases hl : l with
      | nil => exact absurd hl (hne l (by simp))
      | cons c0 t0 =>
        have hhead : ∃ u, joinSep ['\n'] (l :: ls) = c0 :: u := by
          cases ls with
          | nil => exact ⟨t0, by simp [joinSep, hl]⟩
          | cons l2 ls2 => exact ⟨t0 ++ ['\n'] ++ joinSep ['\n'] (l2 :: ls2), by
              show l ++ ['\n'] ++ joinSep ['\n'] (l2 :: ls2) = _
              rw [hl]
              simp⟩
        obtain ⟨u, hu⟩ := hhead
        rw [hu] at hct
        injection hct with hc ht
        subst hc
        exact strip_fix_head c0 t0 (by rw [← hl]; exact hfix l (by simp))
    · exact join_reverse_head_not_ws (l :: ls) hfix hne

theorem splitWsGo_no_ws (l : List Char) (h : ∀ c ∈ l, isPyWs c = false) :
    ∀ acc, acc ++ l ≠ [] → splitWsGo l acc = [acc ++ l] := by
  induction l with
  | nil =>
    intro acc hne
    simp only [List.append_nil] at hne ⊢
    unfold splitWsGo
    rw [if_neg (by simpa using hne)]
  | cons c t ih =>
    intro acc hne
    have hc := h c (by simp)
    show splitWsGo (c :: t) acc = [acc ++ c :: t]
    unfold splitWsGo
    rw [hc]
    simp only [Bool.false_eq_true, if_false]
    rw [ih (fun x hx => h x (by simp [hx])) (acc ++ [c]) (by simp)]
    simp

theorem utf8EncodeChar_lt (c : Char) (b : Nat) (hb : b ∈ utf8EncodeChar c) :
    b < 256 := by
  have hval : c.toNat < 1114112 := by
    rcases char_toNat_valid c with h | ⟨h1, h2⟩
    · omega
    · omega
  unfold utf8EncodeChar at hb
  dsimp only [] at hb
  split at hb
  · simp at hb; omega
  · split at hb
    · simp at hb
      rcases hb with h | h <;> omega
    · split at hb
      · simp at hb
        rcases hb with h | h | h <;> omega
      · simp at hb
        rcases hb with h | h | h | h <;> omega

theorem utf8EncodeL_lt (cs : List Char) : ∀ b ∈ utf8EncodeL cs, b < 256 := by
  induction cs with
  | nil => intro b hb; exact absurd hb (by simp [utf8EncodeL])
  | cons c cs ih =>
    intro b hb
    simp only [utf8EncodeL, List.mem_append] at hb
    cases hb with
    | inl h => exact utf8EncodeChar_lt c b h
    | inr h => exact ih b h

theorem utf8EncodeChar_ne_nil (c : Char) : utf8EncodeChar c ≠ [] := by
  unfold utf8EncodeChar
  dsimp only []
  repeat' split
  all_goals simp

theorem utf8EncodeL_ne_nil (cs : List Char) (h : cs ≠ []) : utf8EncodeL cs ≠ [] := by
  cases cs with
  | nil => exact absurd rfl h
  | cons c cs =>
    show utf8EncodeChar c ++ utf8EncodeL cs ≠ []
    simp [utf8EncodeChar_ne_nil c]

theorem b64Chr_props (v : Nat) (h : v < 64) :
    isPyWs (b64Chr v) = false ∧ (b64Chr v).toNat < 128 := by
  have hall : ∀ w : Fin 64, isPyWs (b64Chr w.val) = false ∧ (b64Chr w.val).toNat < 128 := by
    decide
  exact hall ⟨v, h⟩

theorem pad_props : isPyWs '=' = false ∧ ('=').toNat < 128 := by decide

theorem b64encodeBytes_clean (bs : List Nat) (h : ∀ b ∈ bs, b < 256) :
    ∀ c ∈ b64encodeBytes bs, isPyWs c = false ∧ c.toNat < 128 := by
  induction bs using b64encodeBytes.induct with
  | case1 => intro c hc; exact absurd hc (by simp [b64encodeBytes])
  | case2 b0 =>
    intro c hc
    have hb0 : b0 < 256 := h b0 (by simp)
    simp only [b64encodeBytes, List.mem_cons, List.not_mem_nil, or_false] at hc
    rcases hc with h1 | h1 | h1 | h1 <;> subst h1
    · exact b64Chr_props _ (by omega)
    · exact b64Chr_props _ (by omega)
    · exact pad_props
    · exact pad_props
  | case3 b0 b1 =>
    intro c hc
    have hb0 : b0 < 256 := h b0 (by simp)
    have hb1 : b1 < 256 := h b1 (by simp)
    simp only [b64encodeBytes, List.mem_cons, List.not_mem_nil, or_false] at hc
    rcases hc with h1 | h1 | h1 | h1 <;> subst h1
    · exact b64Chr_props _ (by omega)
    · exact b64Chr_props _ (by omega)
    · exact b64Chr_props _ (by omega)
    · exact pad_props
  | case4 b0 b1 b2 rest ih =>
    intro c hc
    have hb0 : b0 < 256 := h b0 (by simp)
    have hb1 : b1 < 256 := h b1 (by simp)
    have hb2 : b2 < 256 := h b2 (by simp)
    simp only [b64encodeBytes, List.mem_cons] at hc
    rcases hc with h1 | h1 | h1 | h1 | h1
    · subst h1; exact b64Chr_props _ (by omega)
    · subst h1; exact b64Chr_props _ (by omega)
    · subst h1; exact b64Chr_props _ (by omega)
    · subst h1; exact b64Chr_props _ (by omega)
    · exact ih (fun b hb => h b (by simp [hb])) c h1

theorem b64encodeBytes_ne_nil (bs : List Nat) (h : bs ≠ []) :
    b64encodeBytes bs ≠ [] := by
  match bs with
  | [] => exact absurd rfl h
  | [b0] => simp [b64encodeBytes]
  | [b0, b1] => simp [b64encodeBytes]
  | b0 :: b1 :: b2 :: rest => simp [b64encodeBytes]

theorem map_mk_data (ls : List String) : (ls.map String.data).map String.mk = ls := by
  induction ls with
  | nil => rfl
  | cons l ls ih =>
    simp only [List.map_cons]
    rw [ih]

theorem parse_subscription_empty (content : String) (h : pyStrip content.data = []) :
    parse_subscription content = [] := by
  unfold parse_subscription
  rw [h]
  rfl

theorem parse_subscription_fallback (content : String)
    (hb : b64Heuristic (pyStrip content.data) = false) :
    parse_subscription content =
      (((pySplitlines (pyStrip content.data)).map pyStrip).filter
        (fun l => !l.isEmpty)).map String.mk := by
  by_cases he : (pyStrip content.data).isEmpty
  · have h0 : pyStrip content.data = [] := by simpa using he
    rw [parse_subscription_empty content h0, h0]
    rfl
  · simp only [parse_subscription, he, Bool.false_eq_true, if_false]
    unfold b64Heuristic at hb
    cases hpb : pyB64decodeL (concatAll (pySplitWs (pyStrip content.data))) with
    | none => simp only [hpb]
    | some bytes =>
      rw [hpb] at hb
      simp only [] at hb
      simp only [hpb, hb, Bool.false_eq_true, if_false]

theorem parse_subscription_accept (content : String) (bytes : List Nat)
    (hpb : pyB64decodeL (concatAll (pySplitWs (pyStrip content.data))) = some bytes)
    (hne : pyStrip content.data ≠ [])
    (hany : (((pySplitlines (utf8DecodeReplace bytes)).map pyStrip).filter
      (fun l => !l.isEmpty)).any (fun l => containsSub ("://".data) l) = true) :
    parse_subscription content =
      (((pySplitlines (utf8DecodeReplace bytes)).map pyStrip).filter
        (fun l => !l.isEmpty)).map String.mk := by
  simp only [parse_subscription]
  rw [if_neg (by simpa using hne)]
  rw [hpb]
  simp only [] at hany ⊢
  rw [if_pos hany]

/-- C7: `parse_subscription` is idempotent on plain text: joining trimmed,
non-empty, line-break-free lines with newlines and feeding the result back
in returns exactly those lines whenever the base64 branch rejects the text
(decode failure or no decoded line containing "://"); empty or
whitespace-only input yields the empty list rather than an error. -/
theorem c7_plain_text :
    (∀ lines : List String,
      (∀ l ∈ lines, pyStrip l.data = l.data ∧ l.data ≠ [] ∧
        ∀ ch ∈ l.data, isLineBreak ch = false) →
      b64Heuristic (joinSep ['\n'] (lines.map String.data)) = false →
      parse_subscription (String.mk (joinSep ['\n'] (lines.map String.data))) = lines) ∧
    (∀ content : String, pyStrip content.data = [] → parse_subscription content = []) := by
  constructor
  · intro lines hl hb
    cases lines with
    | nil => exact parse_subscription_empty _ rfl
    | cons l0 rest =>
      have hfix : ∀ x ∈ (l0 :: rest).map String.data, pyStrip x = x := by
        intro x hx
        obtain ⟨l, hlmem, hlx⟩ := List.mem_map.mp hx
        subst hlx
        exact (hl l hlmem).1
      have hnex : ∀ x ∈ (l0 :: rest).map String.data, x ≠ [] := by
        intro x hx
        obtain ⟨l, hlmem, hlx⟩ := List.mem_map.mp hx
        subst hlx
        exact (hl l hlmem).2.1
      have hnb : ∀ x ∈ (l0 :: rest).map String.data, ∀ ch ∈ x, isLineBreak ch = false := by
        intro x hx
        obtain ⟨l, hlmem, hlx⟩ := List.mem_map.mp hx
        subst hlx
        exact (hl l hlmem).2.2
      have hstrip : pyStrip (joinSep ['\n'] ((l0 :: rest).map String.data)) =
          joinSep ['\n'] ((l0 :: rest).map String.data) :=
        join_strip_fix _ hfix hnex
      have hdata : (String.mk (joinSep ['\n'] ((l0 :: rest).map String.data))).data =
          joinSep ['\n'] ((l0 :: rest).map String.data) := rfl
      rw [parse_subscription_fallback _ (by rw [hdata, hstrip]; exact hb)]
      rw [hdata, hstrip]
      rw [pySplitlines_joinSep _ hnb hnex, trimmed_lines_id _ hfix hnex, map_mk_data]
  · intro content h
    exact parse_subscription_empty content h

theorem c7_plain_text_witness :
    parse_subscription (String.mk (joinSep ['\n']
      (["ss://abcde", "trojan://x@y:1#n"].map String.data))) =
      ["ss://abcde", "trojan://x@y:1#n"] ∧
    parse_subscription "  \n " = [] := by
  constructor
  · exact c7_plain_text.1 ["ss://abcde", "trojan://x@y:1#n"] (by decide) (by decide)
  · exact c7_plain_text.2 "  \n " (by decide)

/-- C8: round-trip: base64-encoding the newline-join of trimmed, non-empty,
line-break-free URI lines (each containing "://") and passing the blob to
`parse_subscription` reproduces exactly the original lines. -/
theorem c8_base64_roundtrip (lines : List String) (hnil : lines ≠ [])
    (h : ∀ l ∈ lines, pyStrip l.data = l.data ∧ l.data ≠ [] ∧
      (∀ ch ∈ l.data, isLineBreak ch = false) ∧
      containsSub ("://".data) l.data = true) :
    parse_subscription (String.mk (b64encodeBytes (utf8EncodeL
      (joinSep ['\n'] (lines.map String.data))))) = lines := by
  cases lines with
  | nil => exact absurd rfl hnil
  | cons l0 rest =>
    have hfix : ∀ x ∈ (l0 :: rest).map String.data, pyStrip x = x := by
      intro x hx
      obtain ⟨l, hlmem, hlx⟩ := List.mem_map.mp hx
      subst hlx
      exact (h l hlmem).1
    have hnex : ∀ x ∈ (l0 :: rest).map String.data, x ≠ [] := by
      intro x hx
      obtain ⟨l, hlmem, hlx⟩ := List.mem_map.mp hx
      subst hlx
      exact (h l hlmem).2.1
    have hnb : ∀ x ∈ (l0 :: rest).map String.data, ∀ ch ∈ x, isLineBreak ch = false := by
      intro x hx
      obtain ⟨l, hlmem, hlx⟩ := List.mem_map.mp hx
      subst hlx
      exact (h l hlmem).2.2.1
    have hJne : joinSep ['\n'] ((l0 :: rest).map String.data) ≠ [] := by
      simp only [List.map_cons]
      exact joinSep_ne_nil _ _ _ ((h l0 (by simp)).2.1)
    have hbs := utf8EncodeL_lt (joinSep ['\n'] ((l0 :: rest).map String.data))
    have hclean := b64encodeBytes_clean _ hbs
    have hblobne : b64encodeBytes (utf8EncodeL
        (joinSep ['\n'] ((l0 :: rest).map String.data))) ≠ [] :=
      b64encodeBytes_ne_nil _ (utf8EncodeL_ne_nil _ hJne)
    have hstrip : pyStrip (b64encodeBytes (utf8EncodeL
        (joinSep ['\n'] ((l0 :: rest).map String.data)))) =
        b64encodeBytes (utf8EncodeL (joinSep ['\n'] ((l0 :: rest).map String.data))) :=
      pyStrip_of_no_ws _ (fun c hc => (hclean c hc).1)
    have hdata : (String.mk (b64encodeBytes (utf8EncodeL
        (joinSep ['\n'] ((l0 :: rest).map String.data))))).data =
        b64encodeBytes (utf8EncodeL (joinSep ['\n'] ((l0 :: rest).map String.data))) := rfl
    have hsplitws : pySplitWs (b64encodeBytes (utf8EncodeL
        (joinSep ['\n'] ((l0 :: rest).map String.data)))) =
        [b64encodeBytes (utf8EncodeL (joinSep ['\n'] ((l0 :: rest).map String.data)))] := by
      have := splitWsGo_no_ws (b64encodeBytes (utf8EncodeL
        (joinSep ['\n'] ((l0 :: rest).map String.data))))
        (fun c hc => (hclean c hc).1) [] (by simpa using hblobne)
      simpa [pySplitWs] using this
    have hconcat : concatAll [b64encodeBytes (utf8EncodeL
        (joinSep ['\n'] ((l0 :: rest).map String.data)))] =
        b64encodeBytes (utf8EncodeL (joinSep ['\n'] ((l0 :: rest).map String.data))) := by
      simp [concatAll]
    have hpb : pyB64decodeL (b64encodeBytes (utf8EncodeL
        (joinSep ['\n'] ((l0 :: rest).map String.data)))) =
        some (utf8EncodeL (joinSep ['\n'] ((l0 :: rest).map String.data))) := by
      unfold pyB64decodeL
      rw [if_pos]
      · exact a2b_encode _ hbs
      · exact List.all_eq_true.mpr (fun c hc => by simpa using (hclean c hc).2)
    have hlines : ((pySplitlines (utf8DecodeReplace (utf8EncodeL
        (joinSep ['\n'] ((l0 :: rest).map String.data))))).map pyStrip).filter
        (fun l => !l.isEmpty) = (l0 :: rest).map String.data := by
      rw [utf8_roundtrip, pySplitlines_joinSep _ hnb hnex, trimmed_lines_id _ hfix hnex]
    have hacc := parse_subscription_accept
      (String.mk (b64encodeBytes (utf8EncodeL
        (joinSep ['\n'] ((l0 :: rest).map String.data)))))
      (utf8EncodeL (joinSep ['\n'] ((l0 :: rest).map String.data)))
      (by rw [hdata, hstrip, hsplitws, hconcat]; exact hpb)
      (by rw [hdata, hstrip]; exact hblobne)
      (by
        rw [hlines]
        refine List.any_eq_true.mpr ⟨l0.data, by simp, ?_⟩
        exact (h l0 (by simp)).2.2.2)
    rw [hacc, hlines, map_mk_data]

theorem c8_base64_roundtrip_witness :
    parse_subscription (String.mk (b64encodeBytes (utf8EncodeL
      (joinSep ['\n'] (["vless://h", "ss://k"].map String.data))))) =
      ["vless://h", "ss://k"] :=
  c8_base64_roundtrip ["vless://h", "ss://k"] (by decide) (by decide)
